import Mathlib

/-!
# dron8s: server-side apply of templated manifests

A shallow embedding of `main.go` (functions `getVariablesFromDrone`,
`parseYamlAndSplit`, `applyYAML`, `ssa`) together with the properties of the
manifest apply engine proved about it.

Modelling conventions

* Go strings are Lean `String`s; the algorithms on them run on `List Char`.
* `strings.ToLower`, which maps the letters of every script, is not computed:
  it is a parameter of the functions that call it and a field of `World`.
* A Go `error` is a message of type `Err`; a function returning
  `(T, error)` returns `Except Err T`, and `applyYAML`, which returns its
  count also next to an error, returns `Nat × Option Err`.
* Library calls whose result the program does not compute itself (YAML
  decoding, the kustomize build, REST mapping discovery, JSON marshalling,
  the PATCH request) are fields of the structure `World`.  The decoder, the
  marshaller and the kustomize build are functions of their arguments; the
  REST mapper and the cluster answer as a function of the whole history of
  events so far, so that any deterministic cluster behaviour is covered.
* Every such call made by `applyYAML` is appended, with its outcome, to a
  history of `Event`s.
* Output written with `fmt.Print*` is not modelled.
* `applyYAML` is recursive without a bound; the model carries the maximal
  call depth as fuel and gives `none`, next to the history so far, when the
  depth is exhausted.
-/

namespace Dron8s

/-! ## Library: `strings.Split`, `strings.Count` -/

/-- Loop of `strings.Count(s, sep)` for a non-empty separator: occurrences of
`sep` counted left to right without overlap.  `skip` is the number of
characters of an occurrence just found that are still to be stepped over. -/
def countAux (sep : List Char) : Nat → List Char → Nat
  | _, [] => 0
  | skip + 1, _ :: rest => countAux sep skip rest
  | 0, c :: rest =>
    if sep.isPrefixOf (c :: rest) then countAux sep (sep.length - 1) rest + 1
    else countAux sep 0 rest

/-- Loop of `strings.Split(s, sep)` for a non-empty separator (`genSplit`):
cut at each occurrence found left to right, the remainder is the last span.
`cur` holds the characters of the current span in reverse. -/
def splitAux (sep : List Char) : Nat → List Char → List Char → List (List Char)
  | _, cur, [] => [cur.reverse]
  | skip + 1, cur, _ :: rest => splitAux sep skip cur rest
  | 0, cur, c :: rest =>
    if sep.isPrefixOf (c :: rest) then cur.reverse :: splitAux sep (sep.length - 1) [] rest
    else splitAux sep 0 (c :: cur) rest

/-- Model of `strings.Count` for a non-empty separator. -/
def stringsCount (s sep : String) : Nat := countAux sep.data 0 s.data

/-- Model of `strings.Split` for a non-empty separator. -/
def stringsSplit (s sep : String) : List String :=
  (splitAux sep.data 0 [] s.data).map String.mk

/-- The document separator used by `parseYamlAndSplit` and `applyYAML`. -/
def separator : String := "\n---\n"

/-! ## Library: `os.Getenv`, `regexp` -/

/-- Go `error` values are represented by their message. -/
abbrev Err := String

/-- Model of `os.Getenv(key)` over the process environment `environ` (entries
`NAME=VALUE`): the value of the first entry for `key`, the empty string when
there is none. -/
def getenv (environ : List String) (key : String) : String :=
  match environ.find? (fun e => (key.data ++ ['=']).isPrefixOf e.data) with
  | some e => String.mk (e.data.drop (key.data.length + 1))
  | none => ""

/-- Model of `regexp.MustCompile("^" + pre + "(.*)=(.*)").FindStringSubmatch(s)`
for a literal `pre`: the two capture groups of the leftmost-first match, `none`
when there is no match.  `.` matches every character but a newline, `.*` is
greedy: the first group is tried from its longest candidate downwards, the
second group takes all that follows up to a newline or the end. -/
def findSubmatch (pre : List Char) (s : List Char) : Option (List Char × List Char) :=
  if pre.isPrefixOf s then
    let r := s.drop pre.length
    let n := (r.takeWhile (fun c => c != '\n')).length
    (List.range (n + 1)).reverse.findSome? fun i =>
      if r.get? i = some '=' then
        some (r.take i, (r.drop (i + 1)).takeWhile (fun c => c != '\n'))
      else none
  else none

/-! ## `getVariablesFromDrone`

The function `strings.ToLower` maps letters of every script and is not
computed here: it is the parameter `toLower` of the functions that call it. -/

/-- A Go `map[string]string`, as the list of its assignments, latest first. -/
abbrev Ctx := List (String × String)

/-- Assignment `ctx[key] = value`. -/
def Ctx.set (ctx : Ctx) (key value : String) : Ctx := (key, value) :: ctx

/-- Lookup `ctx[key]`: the latest assignment to `key`. -/
def Ctx.get? (ctx : Ctx) (key : String) : Option String := List.lookup key ctx

/-- Body of the loop of `getVariablesFromDrone` for one environment entry;
`toLower` is `strings.ToLower`. -/
def getVariablesStep (toLower : String → String) (ctx : Ctx) (value : String) : Ctx :=
  let ctx :=
    match findSubmatch "PLUGIN_".data value.data with
    | some (m1, m2) => ctx.set (toLower (String.mk m1)) (String.mk m2)
    | none => ctx
  match findSubmatch "DRONE_".data value.data with
  | some (m1, m2) => ctx.set (toLower (String.mk m1)) (String.mk m2)
  | none => ctx

/-- Function `getVariablesFromDrone`: `environ` is the result of
`os.Environ()`, `toLower` is `strings.ToLower`. -/
def getVariablesFromDrone (toLower : String → String) (environ : List String) : Ctx :=
  environ.foldl (getVariablesStep toLower) []

/-- The function `strings.ToLower` on text whose letters are ASCII. -/
def asciiToLower (s : String) : String := String.mk (s.data.map Char.toLower)

/-! ## Library: `text/template`

The model covers templates made of literal text, of actions `{{.name}}` and of
conditionals `{{if c}}`, `{{else}}`, `{{end}}` with `c` one of `true`, `false`,
`.name` (words separated by spaces), executed against a `map[string]string`
under the option `missingkey=error`.  A source with an action of another form
is reported as `Parsed.unsupported` and nothing is said about it. -/

/-- An element of a lexed template: text or one of the actions covered. -/
inductive Tok where
  | text (s : String)
  | field (name : String)
  | ifConst (b : Bool)
  | ifField (name : String)
  | elseBranch
  | endIf
  deriving DecidableEq, Repr

/-- Result of `template.Parse`. -/
inductive Parsed where
  | ok (toks : List Tok)
  | malformed (err : Err)
  | unsupported
  deriving DecidableEq, Repr

/-- Characters of a field name. -/
def isAlphaNumeric (c : Char) : Bool := c == '_' || c.isAlpha || c.isDigit

/-- The words of an action body, separated by spaces; `cur` is the word read
so far, in reverse. -/
def wordsAux : List Char → List Char → List (List Char)
  | cur, [] => if cur.isEmpty then [] else [cur.reverse]
  | cur, c :: rest =>
    if c = ' ' then
      if cur.isEmpty then wordsAux [] rest else cur.reverse :: wordsAux [] rest
    else wordsAux (c :: cur) rest

/-- The name of a word of the form `.name`. -/
def fieldName (word : List Char) : Option String :=
  match word with
  | '.' :: c :: r =>
    if !c.isDigit && (c :: r).all isAlphaNumeric then some (String.mk (c :: r)) else none
  | _ => none

/-- The action with the given body, `none` when it is not covered. -/
def tokOfAction (body : List Char) : Option Tok :=
  match wordsAux [] body with
  | [w] =>
    if w = "else".data then some Tok.elseBranch
    else if w = "end".data then some Tok.endIf
    else (fieldName w).map Tok.field
  | [k, a] =>
    if k = "if".data then
      if a = "true".data then some (Tok.ifConst true)
      else if a = "false".data then some (Tok.ifConst false)
      else (fieldName a).map Tok.ifField
    else none
  | _ => none

/-- Text element for the characters `cur` (in reverse), none when empty. -/
def flushText (cur : List Char) : List Tok :=
  if cur.isEmpty then [] else [Tok.text (String.mk cur.reverse)]

/-- The lexer: `inAction` tells whether the scan is inside `{{ }}`, `cur` is
the text or action body read so far (in reverse), `acc` the elements so far
(in reverse).  An action left open at the end of the input is the parse error
`unclosed action`. -/
def parseAux : Bool → List Char → List Tok → List Char → Parsed
  | false, cur, acc, [] => Parsed.ok (flushText cur ++ acc).reverse
  | true, _, _, [] => Parsed.malformed "unclosed action"
  | false, cur, acc, [c] => Parsed.ok (flushText (c :: cur) ++ acc).reverse
  | true, _, _, [_] => Parsed.malformed "unclosed action"
  | false, cur, acc, c :: d :: rest =>
    if c = '{' ∧ d = '{' then parseAux true [] (flushText cur ++ acc) rest
    else parseAux false (c :: cur) acc (d :: rest)
  | true, cur, acc, c :: d :: rest =>
    if c = '}' ∧ d = '}' then
      match tokOfAction cur.reverse with
      | some tok => parseAux false [] (tok :: acc) rest
      | none => Parsed.unsupported
    else parseAux true (c :: cur) acc (d :: rest)

/-- The parse error of conditionals that do not nest, `none` when they do;
`opened` holds, for each conditional still open, whether its `{{else}}` was
met. -/
def nestingError : List Tok → List Bool → Option Err
  | [], [] => none
  | [], _ :: _ => some "unexpected EOF"
  | Tok.ifConst _ :: rest, opened => nestingError rest (false :: opened)
  | Tok.ifField _ :: rest, opened => nestingError rest (false :: opened)
  | Tok.elseBranch :: rest, false :: opened => nestingError rest (true :: opened)
  | Tok.elseBranch :: _, true :: _ => some "expected end; found \x7b\x7belse\x7d\x7d"
  | Tok.elseBranch :: _, [] => some "unexpected \x7b\x7belse\x7d\x7d"
  | Tok.endIf :: rest, _ :: opened => nestingError rest opened
  | Tok.endIf :: _, [] => some "unexpected \x7b\x7bend\x7d\x7d"
  | Tok.text _ :: rest, opened => nestingError rest opened
  | Tok.field _ :: rest, opened => nestingError rest opened

/-- Model of `template.New("dron8s").Option("missingkey=error").Parse(text)`. -/
def templateParse (text : String) : Parsed :=
  match parseAux false [] [] text.data with
  | Parsed.ok toks =>
    match nestingError toks [] with
    | none => Parsed.ok toks
    | some err => Parsed.malformed err
  | Parsed.malformed err => Parsed.malformed err
  | Parsed.unsupported => Parsed.unsupported

/-- Whether execution is in a branch that is executed: `frames` holds, for each
conditional entered and not yet left, whether that conditional is itself
executed and whether the branch being read is the one selected. -/
def active : List (Bool × Bool) → Bool
  | [] => true
  | (outer, selected) :: _ => outer && selected

/-- Model of `t.Execute(b, ctx)`: the rendered text, or the error of the first
field evaluated whose key the map does not hold.  A string is true in a
condition when it is not empty. -/
def templateExecute (ctx : Ctx) : List Tok → List (Bool × Bool) → Except Err String
  | [], _ => .ok ""
  | Tok.text s :: rest, frames =>
    match templateExecute ctx rest frames with
    | .ok out => .ok ((if active frames then s else "") ++ out)
    | .error err => .error err
  | Tok.field name :: rest, frames =>
    if active frames then
      match ctx.get? name with
      | none => .error ("map has no entry for key \"" ++ name ++ "\"")
      | some value =>
        match templateExecute ctx rest frames with
        | .ok out => .ok (value ++ out)
        | .error err => .error err
    else templateExecute ctx rest frames
  | Tok.ifConst b :: rest, frames => templateExecute ctx rest ((active frames, b) :: frames)
  | Tok.ifField name :: rest, frames =>
    if active frames then
      match ctx.get? name with
      | none => .error ("map has no entry for key \"" ++ name ++ "\"")
      | some value => templateExecute ctx rest ((true, value != "") :: frames)
    else templateExecute ctx rest ((false, false) :: frames)
  | Tok.elseBranch :: rest, frames =>
    match frames with
    | (outer, selected) :: below => templateExecute ctx rest ((outer, !selected) :: below)
    | [] => templateExecute ctx rest []
  | Tok.endIf :: rest, frames => templateExecute ctx rest frames.tail

/-! ## `parseYamlAndSplit` -/

/-- How a call ends: it returns a value with a nil error, returns an error,
panics, or falls outside the modelled template fragment. -/
inductive Outcome (α : Type) where
  | ok (a : α)
  | error (err : Err)
  | panic (err : Err)
  | outside
  deriving DecidableEq, Repr

/-- Function `parseYamlAndSplit`; `toLower` and `environ` are what
`getVariablesFromDrone` reads.  `template.Must` panics with the error of
`Parse`. -/
def parseYamlAndSplit (toLower : String → String) (environ : List String) (yaml : String) :
    Outcome (List String) :=
  let text := yaml
  match templateParse text with
  | Parsed.malformed err => Outcome.panic err
  | Parsed.unsupported => Outcome.outside
  | Parsed.ok t =>
    match templateExecute (getVariablesFromDrone toLower environ) t [] with
    | .error err => Outcome.error err
    | .ok text =>
      let configs := stringsSplit text "\n---\n"
      Outcome.ok configs

/-! ## Kubernetes data model -/

/-- Type `schema.GroupVersionKind`. -/
structure GroupVersionKind where
  group : String
  version : String
  kind : String
  deriving DecidableEq, Repr

/-- Method `GroupVersionKind.String`. -/
def GroupVersionKind.String (gvk : GroupVersionKind) : String :=
  gvk.group ++ "/" ++ gvk.version ++ ", Kind=" ++ gvk.kind

/-- Type `schema.GroupKind`. -/
structure GroupKind where
  group : String
  kind : String
  deriving DecidableEq, Repr

/-- Method `GroupVersionKind.GroupKind`. -/
def GroupVersionKind.GroupKind (gvk : GroupVersionKind) : GroupKind :=
  { group := gvk.group, kind := gvk.kind }

/-- Type `schema.GroupVersionResource`. -/
structure GroupVersionResource where
  group : String
  version : String
  resource : String
  deriving DecidableEq, Repr

/-- Type `unstructured.Unstructured`: the group, version and kind read from
`apiVersion` and `kind`, `metadata.namespace` (empty when not set),
`metadata.name`, and the remaining content. -/
structure Unstructured where
  gvk : GroupVersionKind
  metaNamespace : String
  metaName : String
  content : String
  deriving DecidableEq, Repr

/-- Method `GetNamespace`. -/
def Unstructured.GetNamespace (obj : Unstructured) : String := obj.metaNamespace

/-- Method `SetNamespace`. -/
def Unstructured.SetNamespace (obj : Unstructured) (ns : String) : Unstructured :=
  { obj with metaNamespace := ns }

/-- Method `GetName`. -/
def Unstructured.GetName (obj : Unstructured) : String := obj.metaName

/-- Constant `meta.RESTScopeNameNamespace`. -/
def RESTScopeNameNamespace : String := "namespace"

/-- Constant `meta.RESTScopeNameRoot`. -/
def RESTScopeNameRoot : String := "root"

/-- Type `meta.RESTMapping`: the resource and the name of its scope. -/
structure RESTMapping where
  resource : GroupVersionResource
  scopeName : String
  deriving DecidableEq, Repr

/-- Constant `types.ApplyPatchType`. -/
def ApplyPatchType : String := "application/apply-patch+yaml"

/-- What one call `dr.Patch(ctx, name, pt, data, opts)` sends: `resource` and
`namespace` are those `dr` was built with (`none`: no `Namespace(..)` was
applied to the resource interface). -/
structure PatchCall where
  resource : GroupVersionResource
  namespace? : Option String
  name : String
  patchType : String
  data : String
  fieldManager : String
  deriving DecidableEq, Repr

/-- A library call that can fail, with whether it succeeded. -/
inductive Event where
  | decode (v : String) (succeeded : Bool)
  | kustomize (dir : String) (succeeded : Bool)
  | restMapping (gk : GroupKind) (version : String) (succeeded : Bool)
  | marshal (obj : Unstructured) (succeeded : Bool)
  | patch (call : PatchCall) (succeeded : Bool)
  deriving DecidableEq, Repr

/-- Whether the call of an event succeeded. -/
def Event.succeeded : Event → Bool
  | Event.decode _ b => b
  | Event.kustomize _ b => b
  | Event.restMapping _ _ b => b
  | Event.marshal _ b => b
  | Event.patch _ b => b

/-- What surrounds the process.  `kustomizeRun dir` stands for
`k.Run(filesys.MakeFsOnDisk(), dir)` followed, on success, by
`string(raw)` for `raw, _ := m.AsYaml()`; `toLower` is `strings.ToLower`.  The REST mapper and the cluster
receive the history of the events before the call. -/
structure World where
  environ : List String
  toLower : String → String
  readFile : String → Except Err String
  newDiscoveryClient : Except Err Unit
  newDynamicClient : Except Err Unit
  decode : String → Except Err Unstructured
  filepathDir : String → String
  kustomizeRun : String → Except Err String
  restMapping : List Event → GroupKind → String → Except Err RESTMapping
  marshal : Unstructured → Except Err String
  patch : List Event → PatchCall → Except Err Unit

/-! ## `applyYAML` -/

/-- The string `applyYAML` compares `gvk.String()` with. -/
def kustomizationString : String := "kustomize.config.k8s.io/v1beta1, Kind=Kustomization"

/-- The directory handed to kustomize: `filepath.Dir(os.Getenv("PLUGIN_YAML"))`. -/
def kustomizeDir (w : World) : String := w.filepathDir (getenv w.environ "PLUGIN_YAML")

/-- What a call of `applyYAML` gives: `some (sum, err)` when it returns, `none`
when it does not (the nesting allowed is exhausted), next to the history of
events at that point. -/
abbrev ApplyResult := Option (Nat × Option Err) × List Event

/-- The loop `for i, v := range configs` of `applyYAML`, from the value `sum`
and the history `h`; `recur` is the recursive call of `applyYAML`. -/
def applyLoop (w : World) (recur : List String → List Event → ApplyResult) :
    List String → Nat → List Event → ApplyResult
  | [], sum, h => (some (sum, none), h)
  | v :: rest, sum, h =>
    if v.length = 0 then applyLoop w recur rest sum h
    else
      match w.decode v with
      | .error err => (some (sum, some err), h ++ [Event.decode v false])
      | .ok obj =>
        let h := h ++ [Event.decode v true]
        let gvk := obj.gvk
        if gvk.String = kustomizationString then
          let filepath := w.filepathDir (getenv w.environ "PLUGIN_YAML")
          match w.kustomizeRun filepath with
          | .error err => (some (sum, some err), h ++ [Event.kustomize filepath false])
          | .ok raw =>
            let h := h ++ [Event.kustomize filepath true]
            let yamlString := stringsSplit raw "\n---\n"
            match recur yamlString h with
            | (none, h) => (none, h)
            | (some (_, some err), h) => (some (sum, some err), h)
            | (some (intSum, none), h) => applyLoop w recur rest (sum + intSum) h
        else
          match w.restMapping h gvk.GroupKind gvk.version with
          | .error err =>
            (some (sum, some err), h ++ [Event.restMapping gvk.GroupKind gvk.version false])
          | .ok mapping =>
            let h := h ++ [Event.restMapping gvk.GroupKind gvk.version true]
            let obj :=
              if mapping.scopeName = RESTScopeNameNamespace then
                if obj.GetNamespace = "" then obj.SetNamespace "default" else obj
              else obj
            let ns : Option String :=
              if mapping.scopeName = RESTScopeNameNamespace then some obj.GetNamespace else none
            match w.marshal obj with
            | .error err => (some (sum, some err), h ++ [Event.marshal obj false])
            | .ok data =>
              let h := h ++ [Event.marshal obj true]
              let call : PatchCall :=
                { resource := mapping.resource, namespace? := ns, name := obj.GetName,
                  patchType := ApplyPatchType, data := data, fieldManager := "dron8s-plugin" }
              match w.patch h call with
              | .error err => (some (sum, some err), h ++ [Event.patch call false])
              | .ok _ => applyLoop w recur rest (sum + 1) (h ++ [Event.patch call true])

/-- Function `applyYAML`, for calls nested at most `fuel` deep. -/
def applyYAML (w : World) : Nat → List String → List Event → ApplyResult
  | 0, _, h => (none, h)
  | fuel + 1, configs, h => applyLoop w (applyYAML w fuel) configs 0 h

/-! ## `ssa` -/

/-- Function `ssa`: how it ends (`some (ok sum)` for a nil error, `sum` being
the count it prints; `none` when `applyYAML` does not return within `fuel`
nested calls) and the history at that point. -/
def ssa (w : World) (fuel : Nat) (h : List Event) : Option (Outcome Nat) × List Event :=
  match w.newDiscoveryClient with
  | .error err => (some (Outcome.error err), h)
  | .ok _ =>
    match w.newDynamicClient with
    | .error err => (some (Outcome.error err), h)
    | .ok _ =>
      match w.readFile (getenv w.environ "PLUGIN_YAML") with
      | .error err => (some (Outcome.error err), h)
      | .ok yaml =>
        match parseYamlAndSplit w.toLower w.environ yaml with
        | Outcome.panic err => (some (Outcome.panic err), h)
        | Outcome.outside => (some Outcome.outside, h)
        | Outcome.error err => (some (Outcome.error err), h)
        | Outcome.ok configs =>
          match applyYAML w fuel configs h with
          | (none, h) => (none, h)
          | (some (_, some err), h) => (some (Outcome.error err), h)
          | (some (sum, none), h) => (some (Outcome.ok sum), h)

/-! ## Notions used by the statements -/

/-- The sentinel `GroupVersionKind` of a kustomization document. -/
def kustomizationGVK : GroupVersionKind :=
  { group := "kustomize.config.k8s.io", version := "v1beta1", kind := "Kustomization" }

/-- The Patch calls of a history, in order. -/
def patchCalls : List Event → List PatchCall
  | [] => []
  | Event.patch call _ :: rest => call :: patchCalls rest
  | _ :: rest => patchCalls rest

/-- The Patch calls of a history that returned without error, in order. -/
def appliedCalls : List Event → List PatchCall
  | [] => []
  | Event.patch call true :: rest => call :: appliedCalls rest
  | _ :: rest => appliedCalls rest

/-- The directories of the kustomize runs of a history, in order. -/
def kustomizeRuns : List Event → List String
  | [] => []
  | Event.kustomize dir _ :: rest => dir :: kustomizeRuns rest
  | _ :: rest => kustomizeRuns rest

/-- The spans handed to the decoder in a history, in order. -/
def decodedSpans : List Event → List String
  | [] => []
  | Event.decode v _ :: rest => v :: decodedSpans rest
  | _ :: rest => decodedSpans rest

/-- Whether a span is a kustomization document. -/
def isKustomization (w : World) (v : String) : Bool :=
  match w.decode v with
  | .ok obj => v.length != 0 && obj.gvk.String == kustomizationString
  | .error _ => false

/-- One level of the source-order flattening: the documents of `configs` that
are not kustomization documents, each kustomization document replaced in place
by the flattening `recur` of its expansion.  The traversal ends at the first
span that does not decode and at the first expansion that fails; the flag tells
whether it reached the end of `configs` (at every level). -/
def flattenLoop (w : World) (recur : List String → List Unstructured × Bool) :
    List String → List Unstructured × Bool
  | [] => ([], true)
  | v :: rest =>
    if v.length = 0 then flattenLoop w recur rest
    else
      match w.decode v with
      | .error _ => ([], false)
      | .ok obj =>
        if obj.gvk.String = kustomizationString then
          match w.kustomizeRun (kustomizeDir w) with
          | .error _ => ([], false)
          | .ok raw =>
            match recur (stringsSplit raw separator) with
            | (docs, false) => (docs, false)
            | (docs, true) => (docs ++ (flattenLoop w recur rest).1, (flattenLoop w recur rest).2)
        else (obj :: (flattenLoop w recur rest).1, (flattenLoop w recur rest).2)

/-- The source-order flattening of `configs`, expansions followed at most
`depth` levels down (the flag is `false` when a deeper expansion is met). -/
def flatten (w : World) : Nat → List String → List Unstructured × Bool
  | 0, _ => ([], false)
  | depth + 1, configs => flattenLoop w (flatten w depth) configs

/-- The call `call` is a Patch of the document `doc`: it carries the name of
`doc` and the serialization of `doc`, its namespace possibly defaulted. -/
def PatchFor (w : World) (call : PatchCall) (doc : Unstructured) : Prop :=
  call.name = doc.GetName ∧
    (w.marshal doc = .ok call.data ∨ w.marshal (doc.SetNamespace "default") = .ok call.data)

/-- The object serialized for `obj` under the mapping `m`: its namespace is
defaulted when the resource is namespaced and none is set. -/
def defaulted (m : RESTMapping) (obj : Unstructured) : Unstructured :=
  if m.scopeName = RESTScopeNameNamespace then
    if obj.GetNamespace = "" then obj.SetNamespace "default" else obj
  else obj

/-- The Patch call for `obj` under the mapping `m`, `data` being the
serialization of `defaulted m obj`. -/
def callFor (m : RESTMapping) (obj : Unstructured) (data : String) : PatchCall :=
  { resource := m.resource,
    namespace? := if m.scopeName = RESTScopeNameNamespace then some (defaulted m obj).GetNamespace else none,
    name := (defaulted m obj).GetName, patchType := ApplyPatchType, data := data,
    fieldManager := "dron8s-plugin" }

/-- Every event of the list succeeded. -/
def AllOk (evs : List Event) : Prop := ∀ e ∈ evs, e.succeeded = true

/-- Every event of the list but the last one succeeded. -/
def FailLast (evs : List Event) : Prop := ∀ e ∈ evs.dropLast, e.succeeded = true

/-- The failed event `ev`, issued after the history `hist` and after the Patch
calls `calls`, cuts the traversal with flattening `fl` at the first failing
step, with the error `err`: either `ev` is the decoding or the expansion on
which the flattening ends, and `calls` are the Patch calls of all its
documents; or `ev` is the resolution, the marshalling or the Patch of a
document `d` of the flattening, and `calls` are the Patch calls of the
documents before `d`. -/
def CutBy (w : World) (hist : List Event) (err : Err) (fl : List Unstructured × Bool)
    (calls : List PatchCall) : Event → Prop
  | Event.decode v ok =>
    ok = false ∧ w.decode v = .error err ∧ fl.2 = false ∧ List.Forall₂ (PatchFor w) calls fl.1
  | Event.kustomize dir ok =>
    ok = false ∧ w.kustomizeRun dir = .error err ∧ fl.2 = false ∧
      List.Forall₂ (PatchFor w) calls fl.1
  | Event.restMapping gk ver ok =>
    ok = false ∧ w.restMapping hist gk ver = .error err ∧
      ∃ pre d rest, fl.1 = pre ++ d :: rest ∧ List.Forall₂ (PatchFor w) calls pre ∧
        gk = d.gvk.GroupKind ∧ ver = d.gvk.version
  | Event.marshal o ok =>
    ok = false ∧ w.marshal o = .error err ∧
      ∃ pre d rest, fl.1 = pre ++ d :: rest ∧ List.Forall₂ (PatchFor w) calls pre ∧
        (o = d ∨ o = d.SetNamespace "default")
  | Event.patch call ok =>
    ok = false ∧ w.patch hist call = .error err ∧
      ∃ pre d rest, fl.1 = pre ++ d :: rest ∧ List.Forall₂ (PatchFor w) calls pre ∧
        PatchFor w call d

/-- What relates a run of the loop from `sum = s` and history `h`, with result
`res` and new events `new`, to the flattening `fl` of the same spans. -/
structure RunSpec (w : World) (res : ApplyResult) (fl : List Unstructured × Bool) (s : Nat)
    (h new : List Event) : Prop where
  hist : res.2 = h ++ new
  failLast : FailLast new
  success : ∀ n, res.1 = some (n, none) →
    fl.2 = true ∧ n = s + fl.1.length ∧ List.Forall₂ (PatchFor w) (patchCalls new) fl.1 ∧ AllOk new
  issued : ∃ pre, pre <+: fl.1 ∧ List.Forall₂ (PatchFor w) (patchCalls new) pre
  failure : ∀ n err, res.1 = some (n, some err) → ∃ a ev, new = a ++ [ev] ∧ ev.succeeded = false
  returns : fl.2 = true → res.1 ≠ none
  stopped : res.1 = none →
    AllOk new ∧ fl.2 = false ∧ List.Forall₂ (PatchFor w) (patchCalls new) fl.1
  cut : ∀ n err, res.1 = some (n, some err) →
    ∃ a ev, new = a ++ [ev] ∧ AllOk a ∧ CutBy w (h ++ a) err fl (patchCalls a) ev

/-- What holds of an event `e` issued after the history `hist`: the document
it belongs to, read back from the events just before it. -/
def EventOk (w : World) (hist : List Event) : Event → Prop
  | Event.decode v ok => v.length ≠ 0 ∧ (ok = true ↔ ∃ obj, w.decode v = .ok obj)
  | Event.kustomize dir ok =>
    dir = kustomizeDir w ∧ (ok = true ↔ ∃ raw, w.kustomizeRun dir = .ok raw) ∧
    ∃ pre v obj, hist = pre ++ [Event.decode v true] ∧ w.decode v = .ok obj ∧
      obj.gvk.String = kustomizationString
  | Event.restMapping gk ver ok =>
    (ok = true ↔ ∃ m, w.restMapping hist gk ver = .ok m) ∧
    ∃ pre v obj, hist = pre ++ [Event.decode v true] ∧ w.decode v = .ok obj ∧
      obj.gvk.String ≠ kustomizationString ∧ gk = obj.gvk.GroupKind ∧ ver = obj.gvk.version
  | Event.marshal o ok =>
    (ok = true ↔ ∃ data, w.marshal o = .ok data) ∧
    ∃ pre v obj m, hist = pre ++ [Event.decode v true]
        ++ [Event.restMapping obj.gvk.GroupKind obj.gvk.version true] ∧
      w.decode v = .ok obj ∧ obj.gvk.String ≠ kustomizationString ∧
      w.restMapping (pre ++ [Event.decode v true]) obj.gvk.GroupKind obj.gvk.version = .ok m ∧
      o = defaulted m obj
  | Event.patch call ok =>
    (ok = true ↔ w.patch hist call = .ok ()) ∧
    ∃ pre v obj m data, hist = pre ++ [Event.decode v true]
        ++ [Event.restMapping obj.gvk.GroupKind obj.gvk.version true]
        ++ [Event.marshal (defaulted m obj) true] ∧
      w.decode v = .ok obj ∧ obj.gvk.String ≠ kustomizationString ∧
      w.restMapping (pre ++ [Event.decode v true]) obj.gvk.GroupKind obj.gvk.version = .ok m ∧
      w.marshal (defaulted m obj) = .ok data ∧ call = callFor m obj data

/-- What follows an event `e` issued after the history `hist`, `suffix` being
the events after it: a decoded kustomization document is followed by a
kustomize run, a successful kustomize run by the events of a nested call of
`applyYAML` on the spans of its output, a successful REST mapping by the
marshalling of the object, a successful marshalling by the Patch. -/
def EventNext (w : World) (hist : List Event) : Event → List Event → Prop
  | Event.decode v true, suffix =>
    ∀ obj, w.decode v = .ok obj →
      (obj.gvk.String = kustomizationString →
        ∃ ok t, suffix = Event.kustomize (kustomizeDir w) ok :: t) ∧
      (obj.gvk.String ≠ kustomizationString →
        ∃ ok t, suffix = Event.restMapping obj.gvk.GroupKind obj.gvk.version ok :: t)
  | Event.kustomize dir true, suffix =>
    ∀ raw, w.kustomizeRun dir = .ok raw →
      ∃ fuel new t, (applyYAML w fuel (stringsSplit raw separator)
          (hist ++ [Event.kustomize dir true])).2 = hist ++ [Event.kustomize dir true] ++ new ∧
        suffix = new ++ t
  | Event.restMapping _ _ true, suffix => ∃ o ok t, suffix = Event.marshal o ok :: t
  | Event.marshal _ true, suffix => ∃ call ok t, suffix = Event.patch call ok :: t
  | _, _ => True

/-- The two properties at every position of the events `new` issued after
the history `hist`. -/
def EventsOk (w : World) : List Event → List Event → Prop
  | _, [] => True
  | hist, e :: t => EventOk w hist e ∧ EventNext w hist e t ∧ EventsOk w (hist ++ [e]) t

/-- The result `res` with `k` added to its count. -/
def addCount (k : Nat) : ApplyResult → ApplyResult
  | (some (n, e), h) => (some (k + n, e), h)
  | (none, h) => (none, h)

/-! ## Sample worlds -/

/-- A kustomization document. -/
def docKustomization : String :=
  "apiVersion: kustomize.config.k8s.io/v1beta1\nkind: Kustomization\nresources:\n- cm.yaml"

/-- A ConfigMap document with the given name and no namespace. -/
def docConfigMap (name : String) : String :=
  "apiVersion: v1\nkind: ConfigMap\nmetadata:\n  name: " ++ name

/-- A Namespace document (a cluster-scoped kind). -/
def docNamespace : String := "apiVersion: v1\nkind: Namespace\nmetadata:\n  name: prod"

/-- A document of a kind the sample cluster does not serve. -/
def docWidget : String := "apiVersion: example.com/v1\nkind: Widget\nmetadata:\n  name: w"

/-- The object of `docConfigMap name`. -/
def objConfigMap (name : String) : Unstructured :=
  { gvk := { group := "", version := "v1", kind := "ConfigMap" }, metaNamespace := "",
    metaName := name, content := "" }

/-- The decoder of the sample worlds, on the documents above. -/
def sampleDecode (v : String) : Except Err Unstructured :=
  if v = docKustomization then
    .ok { gvk := kustomizationGVK, metaNamespace := "", metaName := "", content := "resources" }
  else if v = docConfigMap "a" then .ok (objConfigMap "a")
  else if v = docConfigMap "b" then .ok (objConfigMap "b")
  else if v = docConfigMap "c" then .ok (objConfigMap "c")
  else if v = docConfigMap "locked" then .ok (objConfigMap "locked")
  else if v = docNamespace then
    .ok { gvk := { group := "", version := "v1", kind := "Namespace" }, metaNamespace := "",
          metaName := "prod", content := "" }
  else if v = docWidget then
    .ok { gvk := { group := "example.com", version := "v1", kind := "Widget" },
          metaNamespace := "", metaName := "w", content := "" }
  else .error "Object 'Kind' is missing"

/-- The REST mapper of the sample worlds: ConfigMap is namespaced, Namespace
is cluster-scoped, no other kind is served. -/
def sampleRESTMapping (gk : GroupKind) (version : String) : Except Err RESTMapping :=
  if gk = { group := "", kind := "ConfigMap" } ∧ version = "v1" then
    .ok { resource := { group := "", version := "v1", resource := "configmaps" },
          scopeName := RESTScopeNameNamespace }
  else if gk = { group := "", kind := "Namespace" } ∧ version = "v1" then
    .ok { resource := { group := "", version := "v1", resource := "namespaces" },
          scopeName := RESTScopeNameRoot }
  else .error ("no matches for kind \"" ++ gk.kind ++ "\"")

/-- A sample world: the manifest file holds `source`, the kustomize build of
the directory gives `kustomizeOut`, and the cluster refuses the Patch of any
object named `locked`. -/
def sampleWorld (environ : List String) (source : String) (kustomizeOut : Except Err String) :
    World where
  environ := environ
  toLower := asciiToLower
  readFile := fun _ => .ok source
  newDiscoveryClient := .ok ()
  newDynamicClient := .ok ()
  decode := sampleDecode
  filepathDir := fun _ => "/drone/src/deploy"
  kustomizeRun := fun _ => kustomizeOut
  restMapping := fun _ gk version => sampleRESTMapping gk version
  marshal := fun obj => .ok (obj.metaNamespace ++ "/" ++ obj.metaName)
  patch := fun _ call => if call.name = "locked" then .error "forbidden" else .ok ()

/-- The environment of the sample worlds. -/
def sampleEnviron : List String :=
  ["PLUGIN_YAML=/drone/src/deploy/app.yaml", "PLUGIN_TAG=v2", "DRONE_BRANCH=main"]

/-- Sample world whose kustomize build gives three ConfigMaps. -/
def worldThree : World :=
  sampleWorld sampleEnviron ""
    (.ok (docConfigMap "a" ++ "\n---\n" ++ docConfigMap "b" ++ "\n---\n" ++ docConfigMap "c"))

/-- Sample world whose kustomize build gives a ConfigMap the cluster accepts
followed by one it refuses. -/
def worldPartial : World :=
  sampleWorld sampleEnviron "" (.ok (docConfigMap "a" ++ "\n---\n" ++ docConfigMap "locked"))

/-- Sample world whose kustomize build gives a kustomization document again. -/
def worldCycle : World :=
  sampleWorld sampleEnviron "" (.ok (docConfigMap "a" ++ "\n---\n" ++ docKustomization))

/-- The span `v` is always applied: it is empty, or a kustomization document,
or a document for which resolution, marshalling and the Patch succeed whatever
the history. -/
def AlwaysApplies (w : World) (v : String) : Prop :=
  v.length = 0 ∨ ∃ obj, w.decode v = .ok obj ∧
    (obj.gvk.String = kustomizationString ∨
      ∀ h, ∃ m, w.restMapping h obj.gvk.GroupKind obj.gvk.version = .ok m ∧
        ∃ data, w.marshal (defaulted m obj) = .ok data ∧
          ∀ h1, w.patch h1 (callFor m obj data) = .ok ())

/-- The names that the execution of a template looks up in the mapping `ctx`,
in order: those of the actions `.name` and of the conditions `if .name` that
lie outside every branch that is not selected (a condition on a name the
mapping does not hold counts as not selected). -/
def evaluatedRefs (ctx : Ctx) : List Tok → List (Bool × Bool) → List String
  | [], _ => []
  | Tok.text _ :: rest, frames => evaluatedRefs ctx rest frames
  | Tok.field name :: rest, frames =>
    if active frames then name :: evaluatedRefs ctx rest frames
    else evaluatedRefs ctx rest frames
  | Tok.ifConst b :: rest, frames => evaluatedRefs ctx rest ((active frames, b) :: frames)
  | Tok.ifField name :: rest, frames =>
    if active frames then
      match ctx.get? name with
      | none => name :: evaluatedRefs ctx rest ((true, false) :: frames)
      | some value => name :: evaluatedRefs ctx rest ((true, value != "") :: frames)
    else evaluatedRefs ctx rest ((false, false) :: frames)
  | Tok.elseBranch :: rest, frames =>
    match frames with
    | (outer, selected) :: below => evaluatedRefs ctx rest ((outer, !selected) :: below)
    | [] => evaluatedRefs ctx rest []
  | Tok.endIf :: rest, frames => evaluatedRefs ctx rest frames.tail

/-- A manifest source that refers to the variable `replicas`. -/
def sourceUndefined : String :=
  "image: app:\x7b\x7b.tag\x7d\x7d\nreplicas: \x7b\x7b.replicas\x7d\x7d"

/-- A manifest source with an action that is not closed. -/
def sourceMalformed : String := "image: app:\x7b\x7b .tag"

/-- A manifest source that refers to the variable `namespace` inside a
conditional whose branch is not executed. -/
def sourceConditional : String :=
  docConfigMap "a" ++
    "\x7b\x7bif false\x7d\x7d\n  namespace: \x7b\x7b.namespace\x7d\x7d\x7b\x7bend\x7d\x7d"

/-- Sample world whose manifest source refers to a variable that is not set. -/
def worldUndefined : World := sampleWorld sampleEnviron sourceUndefined (.error "no kustomization")

/-- Sample world whose manifest source is not a well-formed template. -/
def worldMalformed : World := sampleWorld sampleEnviron sourceMalformed (.error "no kustomization")

/-- Sample world whose manifest source refers to a variable that is not set
inside a branch that is not executed. -/
def worldConditional : World :=
  sampleWorld sampleEnviron sourceConditional (.error "no kustomization")

/-! ## Lemmas -/

/-- Case analysis and induction along the loop of `applyYAML`. -/
theorem applyLoop_cases (w : World) (recur : List String → List Event → ApplyResult)
    (P : List String → Nat → List Event → ApplyResult → Prop)
    (hnil : ∀ s h, P [] s h (some (s, none), h))
    (hskip : ∀ v rest s h, v.length = 0 →
      P rest s h (applyLoop w recur rest s h) → P (v :: rest) s h (applyLoop w recur rest s h))
    (hdecode : ∀ v rest s h err, v.length ≠ 0 → w.decode v = .error err →
      P (v :: rest) s h (some (s, some err), h ++ [Event.decode v false]))
    (hkustErr : ∀ v rest s h obj err, v.length ≠ 0 → w.decode v = .ok obj →
      obj.gvk.String = kustomizationString → w.kustomizeRun (kustomizeDir w) = .error err →
      P (v :: rest) s h
        (some (s, some err), h ++ [Event.decode v true] ++ [Event.kustomize (kustomizeDir w) false]))
    (hkustNone : ∀ v rest s h obj raw h1, v.length ≠ 0 → w.decode v = .ok obj →
      obj.gvk.String = kustomizationString → w.kustomizeRun (kustomizeDir w) = .ok raw →
      recur (stringsSplit raw separator)
        (h ++ [Event.decode v true] ++ [Event.kustomize (kustomizeDir w) true]) = (none, h1) →
      P (v :: rest) s h (none, h1))
    (hkustFail : ∀ v rest s h obj raw n err h1, v.length ≠ 0 → w.decode v = .ok obj →
      obj.gvk.String = kustomizationString → w.kustomizeRun (kustomizeDir w) = .ok raw →
      recur (stringsSplit raw separator)
        (h ++ [Event.decode v true] ++ [Event.kustomize (kustomizeDir w) true])
        = (some (n, some err), h1) →
      P (v :: rest) s h (some (s, some err), h1))
    (hkustOk : ∀ v rest s h obj raw n h1, v.length ≠ 0 → w.decode v = .ok obj →
      obj.gvk.String = kustomizationString → w.kustomizeRun (kustomizeDir w) = .ok raw →
      recur (stringsSplit raw separator)
        (h ++ [Event.decode v true] ++ [Event.kustomize (kustomizeDir w) true])
        = (some (n, none), h1) →
      P rest (s + n) h1 (applyLoop w recur rest (s + n) h1) →
      P (v :: rest) s h (applyLoop w recur rest (s + n) h1))
    (hmapErr : ∀ v rest s h obj err, v.length ≠ 0 → w.decode v = .ok obj →
      obj.gvk.String ≠ kustomizationString →
      w.restMapping (h ++ [Event.decode v true]) obj.gvk.GroupKind obj.gvk.version = .error err →
      P (v :: rest) s h (some (s, some err),
        h ++ [Event.decode v true] ++ [Event.restMapping obj.gvk.GroupKind obj.gvk.version false]))
    (hmarshalErr : ∀ v rest s h obj m err, v.length ≠ 0 → w.decode v = .ok obj →
      obj.gvk.String ≠ kustomizationString →
      w.restMapping (h ++ [Event.decode v true]) obj.gvk.GroupKind obj.gvk.version = .ok m →
      w.marshal (defaulted m obj) = .error err →
      P (v :: rest) s h (some (s, some err),
        h ++ [Event.decode v true] ++ [Event.restMapping obj.gvk.GroupKind obj.gvk.version true]
          ++ [Event.marshal (defaulted m obj) false]))
    (hpatchErr : ∀ v rest s h obj m data err, v.length ≠ 0 → w.decode v = .ok obj →
      obj.gvk.String ≠ kustomizationString →
      w.restMapping (h ++ [Event.decode v true]) obj.gvk.GroupKind obj.gvk.version = .ok m →
      w.marshal (defaulted m obj) = .ok data →
      w.patch (h ++ [Event.decode v true]
          ++ [Event.restMapping obj.gvk.GroupKind obj.gvk.version true]
          ++ [Event.marshal (defaulted m obj) true]) (callFor m obj data) = .error err →
      P (v :: rest) s h (some (s, some err),
        h ++ [Event.decode v true] ++ [Event.restMapping obj.gvk.GroupKind obj.gvk.version true]
          ++ [Event.marshal (defaulted m obj) true] ++ [Event.patch (callFor m obj data) false]))
    (hpatchOk : ∀ v rest s h obj m data, v.length ≠ 0 → w.decode v = .ok obj →
      obj.gvk.String ≠ kustomizationString →
      w.restMapping (h ++ [Event.decode v true]) obj.gvk.GroupKind obj.gvk.version = .ok m →
      w.marshal (defaulted m obj) = .ok data →
      w.patch (h ++ [Event.decode v true]
          ++ [Event.restMapping obj.gvk.GroupKind obj.gvk.version true]
          ++ [Event.marshal (defaulted m obj) true]) (callFor m obj data) = .ok () →
      P rest (s + 1) (h ++ [Event.decode v true]
          ++ [Event.restMapping obj.gvk.GroupKind obj.gvk.version true]
          ++ [Event.marshal (defaulted m obj) true] ++ [Event.patch (callFor m obj data) true])
        (applyLoop w recur rest (s + 1) (h ++ [Event.decode v true]
          ++ [Event.restMapping obj.gvk.GroupKind obj.gvk.version true]
          ++ [Event.marshal (defaulted m obj) true] ++ [Event.patch (callFor m obj data) true])) →
      P (v :: rest) s h (applyLoop w recur rest (s + 1) (h ++ [Event.decode v true]
          ++ [Event.restMapping obj.gvk.GroupKind obj.gvk.version true]
          ++ [Event.marshal (defaulted m obj) true] ++ [Event.patch (callFor m obj data) true]))) :
    ∀ cs s h, P cs s h (applyLoop w recur cs s h) := by
  intro cs
  induction cs with
  | nil => intro s h; simpa only [applyLoop] using hnil s h
  | cons v rest ih =>
    intro s h
    by_cases hlen : v.length = 0
    · have := hskip v rest s h hlen (ih s h)
      simpa only [applyLoop, hlen, if_true] using this
    · rcases hd : w.decode v with err | obj
      · have := hdecode v rest s h err hlen hd
        simpa only [applyLoop, hlen, if_false, hd] using this
      · by_cases hk : obj.gvk.String = kustomizationString
        · rcases hr : w.kustomizeRun (kustomizeDir w) with err | raw
          · have := hkustErr v rest s h obj err hlen hd hk hr
            simp only [kustomizeDir] at hr this
            simpa only [applyLoop, hlen, if_false, if_true, hd, hk, hr] using this
          · rcases hrec : recur (stringsSplit raw separator)
              (h ++ [Event.decode v true] ++ [Event.kustomize (kustomizeDir w) true]) with ⟨st, h1⟩
            rcases st with _ | ⟨n, _ | err⟩
            · have := hkustNone v rest s h obj raw h1 hlen hd hk hr hrec
              simp only [kustomizeDir, separator] at hr hrec this
              simpa only [applyLoop, hlen, if_false, if_true, hd, hk, hr, hrec] using this
            · have := hkustOk v rest s h obj raw n h1 hlen hd hk hr hrec (ih _ _)
              simp only [kustomizeDir, separator] at hr hrec this
              simpa only [applyLoop, hlen, if_false, if_true, hd, hk, hr, hrec] using this
            · have := hkustFail v rest s h obj raw n err h1 hlen hd hk hr hrec
              simp only [kustomizeDir, separator] at hr hrec this
              simpa only [applyLoop, hlen, if_false, if_true, hd, hk, hr, hrec] using this
        · rcases hm : w.restMapping (h ++ [Event.decode v true]) obj.gvk.GroupKind
              obj.gvk.version with err | m
          · have := hmapErr v rest s h obj err hlen hd hk hm
            simpa only [applyLoop, hlen, if_false, hd, hk, hm] using this
          · rcases hj : w.marshal (defaulted m obj) with err | data
            · have := hmarshalErr v rest s h obj m err hlen hd hk hm hj
              simp only [defaulted] at hj this
              simpa only [applyLoop, hlen, if_false, hd, hk, hm, hj] using this
            · rcases hp : w.patch (h ++ [Event.decode v true]
                  ++ [Event.restMapping obj.gvk.GroupKind obj.gvk.version true]
                  ++ [Event.marshal (defaulted m obj) true]) (callFor m obj data) with err | u
              · have := hpatchErr v rest s h obj m data err hlen hd hk hm hj hp
                simp only [defaulted, callFor] at hj hp this
                simpa only [applyLoop, hlen, if_false, hd, hk, hm, hj, hp] using this
              · have := hpatchOk v rest s h obj m data hlen hd hk hm hj hp (ih _ _)
                simp only [defaulted, callFor] at hj hp this
                simpa only [applyLoop, hlen, if_false, hd, hk, hm, hj, hp] using this


theorem patchCalls_append (a b : List Event) :
    patchCalls (a ++ b) = patchCalls a ++ patchCalls b := by
  induction a with
  | nil => rfl
  | cons e t ih => cases e <;> simp [patchCalls, ih]

theorem allOk_append {a b : List Event} (ha : AllOk a) (hb : AllOk b) : AllOk (a ++ b) := by
  intro e he
  rcases List.mem_append.1 he with h | h
  · exact ha e h
  · exact hb e h

theorem allOk_failLast {a : List Event} (ha : AllOk a) : FailLast a :=
  fun e he => ha e (List.mem_of_mem_dropLast he)

theorem failLast_append {a b : List Event} (ha : AllOk a) (hb : FailLast b) :
    FailLast (a ++ b) := by
  by_cases hnil : b = []
  · subst hnil; simpa using allOk_failLast ha
  · intro e he
    rw [List.dropLast_append_of_ne_nil _ hnil] at he
    rcases List.mem_append.1 he with h | h
    · exact ha e h
    · exact hb e h

theorem failLast_snoc {a : List Event} (ha : AllOk a) (e : Event) : FailLast (a ++ [e]) :=
  failLast_append ha (by intro x hx; simp at hx)

theorem cutBy_failed (w : World) (hist : List Event) (err : Err)
    (fl : List Unstructured × Bool) (calls : List PatchCall) (ev : Event)
    (hc : CutBy w hist err fl calls ev) : ev.succeeded = false := by
  cases ev with
  | decode v ok => exact hc.1
  | kustomize d ok => exact hc.1
  | restMapping gk ver ok => exact hc.1
  | marshal o ok => exact hc.1
  | patch call ok => exact hc.1

theorem cutBy_issued (w : World) (hist : List Event) (err : Err)
    (fl : List Unstructured × Bool) (blk : List Event) (ev : Event)
    (hc : CutBy w hist err fl (patchCalls blk) ev) :
    ∃ pre, pre <+: fl.1 ∧ List.Forall₂ (PatchFor w) (patchCalls (blk ++ [ev])) pre := by
  cases ev with
  | decode v ok =>
    obtain ⟨_, _, _, hf⟩ := hc
    exact ⟨fl.1, List.prefix_refl _, by simpa [patchCalls_append, patchCalls] using hf⟩
  | kustomize d ok =>
    obtain ⟨_, _, _, hf⟩ := hc
    exact ⟨fl.1, List.prefix_refl _, by simpa [patchCalls_append, patchCalls] using hf⟩
  | restMapping gk ver ok =>
    obtain ⟨_, _, pre, d, rest, hfl, hf, _⟩ := hc
    exact ⟨pre, by rw [hfl]; exact List.prefix_append _ _,
      by simpa [patchCalls_append, patchCalls] using hf⟩
  | marshal o ok =>
    obtain ⟨_, _, pre, d, rest, hfl, hf, _⟩ := hc
    exact ⟨pre, by rw [hfl]; exact List.prefix_append _ _,
      by simpa [patchCalls_append, patchCalls] using hf⟩
  | patch call ok =>
    obtain ⟨_, _, pre, d, rest, hfl, hf, hp⟩ := hc
    refine ⟨pre ++ [d], ?_, ?_⟩
    · rw [hfl]
      exact ⟨rest, by simp⟩
    · rw [patchCalls_append]
      exact List.rel_append hf (by simpa [patchCalls] using hp)

theorem cutBy_block (w : World) (hist : List Event) (err : Err)
    (fl : List Unstructured × Bool) (calls : List PatchCall) (ev : Event)
    (calls0 : List PatchCall) (docs : List Unstructured)
    (h0 : List.Forall₂ (PatchFor w) calls0 docs) (hc : CutBy w hist err fl calls ev) :
    CutBy w hist err (docs ++ fl.1, fl.2) (calls0 ++ calls) ev := by
  cases ev with
  | decode v ok =>
    obtain ⟨h1, h2, h3, hf⟩ := hc
    exact ⟨h1, h2, h3, List.rel_append h0 hf⟩
  | kustomize d ok =>
    obtain ⟨h1, h2, h3, hf⟩ := hc
    exact ⟨h1, h2, h3, List.rel_append h0 hf⟩
  | restMapping gk ver ok =>
    obtain ⟨h1, h2, pre, d, rest, hfl, hf, h3⟩ := hc
    exact ⟨h1, h2, docs ++ pre, d, rest, by simp only [hfl, List.append_assoc],
      List.rel_append h0 hf, h3⟩
  | marshal o ok =>
    obtain ⟨h1, h2, pre, d, rest, hfl, hf, h3⟩ := hc
    exact ⟨h1, h2, docs ++ pre, d, rest, by simp only [hfl, List.append_assoc],
      List.rel_append h0 hf, h3⟩
  | patch call ok =>
    obtain ⟨h1, h2, pre, d, rest, hfl, hf, h3⟩ := hc
    exact ⟨h1, h2, docs ++ pre, d, rest, by simp only [hfl, List.append_assoc],
      List.rel_append h0 hf, h3⟩

theorem cutBy_extend (w : World) (hist : List Event) (err : Err)
    (fl1 fl2 : List Unstructured × Bool) (calls : List PatchCall) (ev : Event)
    (hfalse : fl1.2 = false → fl2 = (fl1.1, false)) (hext : ∃ more, fl2.1 = fl1.1 ++ more)
    (hc : CutBy w hist err fl1 calls ev) : CutBy w hist err fl2 calls ev := by
  obtain ⟨more, hmore⟩ := hext
  cases ev with
  | decode v ok =>
    obtain ⟨h1, h2, h3, hf⟩ := hc
    rw [hfalse h3]
    exact ⟨h1, h2, rfl, hf⟩
  | kustomize d ok =>
    obtain ⟨h1, h2, h3, hf⟩ := hc
    rw [hfalse h3]
    exact ⟨h1, h2, rfl, hf⟩
  | restMapping gk ver ok =>
    obtain ⟨h1, h2, pre, d, rest, hfl, hf, h3⟩ := hc
    exact ⟨h1, h2, pre, d, rest ++ more, by rw [hmore, hfl]; simp, hf, h3⟩
  | marshal o ok =>
    obtain ⟨h1, h2, pre, d, rest, hfl, hf, h3⟩ := hc
    exact ⟨h1, h2, pre, d, rest ++ more, by rw [hmore, hfl]; simp, hf, h3⟩
  | patch call ok =>
    obtain ⟨h1, h2, pre, d, rest, hfl, hf, h3⟩ := hc
    exact ⟨h1, h2, pre, d, rest ++ more, by rw [hmore, hfl]; simp, hf, h3⟩

theorem runSpec_failed (w : World) (fl : List Unstructured × Bool) (s s1 : Nat) (err : Err)
    (h blk : List Event) (ev : Event) (hblk : AllOk blk)
    (hcut : CutBy w (h ++ blk) err fl (patchCalls blk) ev) :
    RunSpec w (some (s1, some err), h ++ (blk ++ [ev])) fl s h (blk ++ [ev]) where
  hist := rfl
  failLast := failLast_snoc hblk ev
  success := by intro n hn; simp at hn
  issued := cutBy_issued w _ err fl blk ev hcut
  failure := fun _ _ _ => ⟨blk, ev, rfl, cutBy_failed w _ err fl _ ev hcut⟩
  returns := by intro _; simp
  stopped := by intro hn; simp at hn
  cut := by
    intro n e hn
    simp only [Option.some.injEq, Prod.mk.injEq] at hn
    obtain ⟨_, he⟩ := hn
    subst he
    exact ⟨blk, ev, rfl, hblk, hcut⟩

theorem runSpec_block (w : World) (res : ApplyResult) (docs : List Unstructured)
    (fl : List Unstructured × Bool) (s : Nat) (h blk new : List Event) (hblk : AllOk blk)
    (hdocs : List.Forall₂ (PatchFor w) (patchCalls blk) docs)
    (hrest : RunSpec w res fl (s + docs.length) (h ++ blk) new) :
    RunSpec w res (docs ++ fl.1, fl.2) s h (blk ++ new) where
  hist := by rw [hrest.hist, List.append_assoc]
  failLast := failLast_append hblk hrest.failLast
  success := by
    intro n hn
    obtain ⟨h1, h2, h3, h4⟩ := hrest.success n hn
    refine ⟨h1, ?_, ?_, allOk_append hblk h4⟩
    · simp only [List.length_append]; omega
    · rw [patchCalls_append]; exact List.rel_append hdocs h3
  issued := by
    obtain ⟨pre, hpre, hf⟩ := hrest.issued
    refine ⟨docs ++ pre, ?_, ?_⟩
    · exact (List.prefix_append_right_inj docs).2 hpre
    · rw [patchCalls_append]; exact List.rel_append hdocs hf
  failure := by
    intro n err hn
    obtain ⟨a, ev, ha, hev⟩ := hrest.failure n err hn
    exact ⟨blk ++ a, ev, by rw [ha, List.append_assoc], hev⟩
  returns := hrest.returns
  stopped := by
    intro hn
    obtain ⟨h1, h2, h3⟩ := hrest.stopped hn
    exact ⟨allOk_append hblk h1, h2, by rw [patchCalls_append]; exact List.rel_append hdocs h3⟩
  cut := by
    intro n err hn
    obtain ⟨a, ev, ha, hok, hc⟩ := hrest.cut n err hn
    refine ⟨blk ++ a, ev, by rw [ha, List.append_assoc], allOk_append hblk hok, ?_⟩
    have := cutBy_block w _ err fl _ ev (patchCalls blk) docs hdocs hc
    rw [patchCalls_append]
    simpa only [List.append_assoc] using this

theorem runSpec_nested (w : World) (st1 st2 : Option (Nat × Option Err)) (h1 : List Event)
    (fl1 fl2 : List Unstructured × Bool) (s : Nat) (h0 new1 : List Event)
    (spec1 : RunSpec w (st1, h1) fl1 0 h0 new1)
    (hnone : st1 = none → st2 = none)
    (herr : ∀ n err, st1 = some (n, some err) → ∃ k, st2 = some (k, some err))
    (hns : ∀ n, st1 ≠ some (n, none))
    (hfalse : fl1.2 = false → fl2 = (fl1.1, false)) (hext : ∃ more, fl2.1 = fl1.1 ++ more) :
    RunSpec w (st2, h1) fl2 s h0 new1 := by
  have hpre : fl1.1 <+: fl2.1 := by
    obtain ⟨more, hm⟩ := hext
    exact ⟨more, hm.symm⟩
  have hc : fl2.2 = true → fl1.2 = true := by
    intro h2
    by_contra hne
    have hf : fl1.2 = false := by simpa using hne
    rw [hfalse hf] at h2
    simp at h2
  have hcases : st1 = none ∨ ∃ n err, st1 = some (n, some err) := by
    rcases st1 with _ | ⟨n, _ | err⟩
    · exact Or.inl rfl
    · exact absurd rfl (hns n)
    · exact Or.inr ⟨n, err, rfl⟩
  refine ⟨spec1.hist, spec1.failLast, ?_, ?_, ?_, ?_, ?_, ?_⟩
  · intro n hn
    rcases hcases with h | ⟨k, err, h⟩
    · rw [hnone h] at hn; simp at hn
    · obtain ⟨k2, hk2⟩ := herr k err h
      simp only [hk2] at hn
      simp at hn
  · obtain ⟨pre, hp, hf⟩ := spec1.issued
    exact ⟨pre, hp.trans hpre, hf⟩
  · intro n err hn
    rcases hcases with h | ⟨k, err1, h⟩
    · rw [hnone h] at hn; simp at hn
    · exact spec1.failure k err1 h
  · intro hfl
    rcases hcases with h | ⟨k, err1, h⟩
    · exact absurd h (spec1.returns (hc hfl))
    · obtain ⟨k2, hk2⟩ := herr k err1 h
      simp [hk2]
  · intro hn
    rcases hcases with h | ⟨k, err1, h⟩
    · obtain ⟨a1, a2, a3⟩ := spec1.stopped h
      rw [hfalse a2]
      exact ⟨a1, rfl, a3⟩
    · obtain ⟨k2, hk2⟩ := herr k err1 h
      simp only [hk2] at hn
      simp at hn
  · intro n err hn
    rcases hcases with h | ⟨k, err1, h⟩
    · rw [hnone h] at hn; simp at hn
    · obtain ⟨k2, hk2⟩ := herr k err1 h
      simp only [hk2, Option.some.injEq, Prod.mk.injEq] at hn
      obtain ⟨_, he⟩ := hn
      subst he
      obtain ⟨a, ev, ha, hok, hcut⟩ := spec1.cut k err1 h
      exact ⟨a, ev, ha, hok, cutBy_extend w _ err1 fl1 fl2 _ ev hfalse hext hcut⟩

theorem patchFor_callFor (w : World) (m : RESTMapping) (obj : Unstructured) (data : String)
    (hj : w.marshal (defaulted m obj) = .ok data) : PatchFor w (callFor m obj data) obj := by
  refine ⟨?_, ?_⟩
  · show (defaulted m obj).GetName = obj.GetName
    unfold defaulted
    split_ifs <;> rfl
  · show w.marshal obj = .ok data ∨ w.marshal (obj.SetNamespace "default") = .ok data
    unfold defaulted at hj
    split_ifs at hj
    · exact Or.inr hj
    · exact Or.inl hj
    · exact Or.inl hj

theorem defaulted_cases (m : RESTMapping) (obj : Unstructured) :
    defaulted m obj = obj ∨ defaulted m obj = obj.SetNamespace "default" := by
  unfold defaulted
  split_ifs
  · exact Or.inr rfl
  · exact Or.inl rfl
  · exact Or.inl rfl

/-- The loop of `applyYAML` against one level of the flattening. -/
theorem applyLoop_spec (w : World) (recur : List String → List Event → ApplyResult)
    (frecur : List String → List Unstructured × Bool)
    (hrec : ∀ cs h, ∃ new, RunSpec w (recur cs h) (frecur cs) 0 h new) :
    ∀ cs s h, ∃ new, RunSpec w (applyLoop w recur cs s h) (flattenLoop w frecur cs) s h new := by
  apply applyLoop_cases w recur
    (fun cs s h res => ∃ new, RunSpec w res (flattenLoop w frecur cs) s h new)
  · -- end of the list
    intro s h
    refine ⟨[], ?_, ?_, ?_, ?_, ?_, ?_, ?_, ?_⟩
    · simp
    · intro e he; simp at he
    · intro n hn
      simp only [Option.some.injEq, Prod.mk.injEq, and_true] at hn
      simp [flattenLoop, patchCalls, AllOk, hn]
    · exact ⟨[], List.nil_prefix, by simp [patchCalls]⟩
    · intro n err hn; simp at hn
    · intro _; simp
    · intro hn; simp at hn
    · intro n err hn; simp at hn
  · -- empty span
    intro v rest s h hlen ih
    simpa only [flattenLoop, hlen, if_true] using ih
  · -- decode fails
    intro v rest s h err hlen hd
    have hfl : flattenLoop w frecur (v :: rest) = ([], false) := by
      simp only [flattenLoop, hlen, if_false, hd]
    rw [hfl]
    refine ⟨[] ++ [Event.decode v false], ?_⟩
    exact runSpec_failed w _ s s err h [] _ (by intro e he; simp at he)
      ⟨rfl, hd, rfl, by simp [patchCalls]⟩
  · -- kustomize fails
    intro v rest s h obj err hlen hd hk hr
    have hfl : flattenLoop w frecur (v :: rest) = ([], false) := by
      simp only [flattenLoop, hlen, if_false, hd, hk, if_true, hr]
    rw [hfl]
    refine ⟨[Event.decode v true] ++ [Event.kustomize (kustomizeDir w) false], ?_⟩
    have := runSpec_failed w ([], false) s s err h [Event.decode v true]
      (Event.kustomize (kustomizeDir w) false) (by intro e he; simp at he; simp [he, Event.succeeded])
      ⟨rfl, hr, rfl, by simp [patchCalls]⟩
    simpa only [List.append_assoc] using this
  · -- nested call does not return
    intro v rest s h obj raw h1 hlen hd hk hr hrun
    obtain ⟨new1, spec1⟩ := hrec (stringsSplit raw separator)
      (h ++ [Event.decode v true] ++ [Event.kustomize (kustomizeDir w) true])
    rw [hrun] at spec1
    have hc : (frecur (stringsSplit raw separator)).2 = false := by
      by_contra hne
      exact spec1.returns (by simpa using hne) rfl
    have hfl : flattenLoop w frecur (v :: rest)
        = ((frecur (stringsSplit raw separator)).1, false) := by
      rcases hf : frecur (stringsSplit raw separator) with ⟨docs, c⟩
      rw [hf] at hc
      simp only at hc
      subst hc
      simp only [flattenLoop, hlen, if_false, hd, hk, if_true, hr, hf]
    have spec2 := runSpec_nested w none none h1 _ ((frecur (stringsSplit raw separator)).1, false)
      (s + ([] : List Unstructured).length) _ new1 spec1 (fun _ => rfl)
      (by intro n err hn; simp at hn) (by intro n hn; simp at hn)
      (fun _ => rfl) ⟨[], by simp⟩
    have spec3 := runSpec_block w _ [] _ s h
      ([Event.decode v true] ++ [Event.kustomize (kustomizeDir w) true]) new1
      (by intro e he; simp at he; rcases he with he | he <;> simp [he, Event.succeeded])
      (by simp [patchCalls]) (by simpa only [List.append_assoc] using spec2)
    rw [hfl]
    exact ⟨_, by simpa using spec3⟩
  · -- nested call fails
    intro v rest s h obj raw n err h1 hlen hd hk hr hrun
    obtain ⟨new1, spec1⟩ := hrec (stringsSplit raw separator)
      (h ++ [Event.decode v true] ++ [Event.kustomize (kustomizeDir w) true])
    rw [hrun] at spec1
    have hfalse : (frecur (stringsSplit raw separator)).2 = false →
        flattenLoop w frecur (v :: rest) = ((frecur (stringsSplit raw separator)).1, false) := by
      rcases hf : frecur (stringsSplit raw separator) with ⟨docs, c⟩
      intro hc
      simp only at hc
      subst hc
      simp only [flattenLoop, hlen, if_false, hd, hk, if_true, hr, hf]
    have hext : ∃ more, (flattenLoop w frecur (v :: rest)).1
        = (frecur (stringsSplit raw separator)).1 ++ more := by
      rcases hf : frecur (stringsSplit raw separator) with ⟨docs, c⟩
      cases c
      · simp only [flattenLoop, hlen, if_false, hd, hk, if_true, hr, hf]
        exact ⟨[], by simp⟩
      · simp only [flattenLoop, hlen, if_false, hd, hk, if_true, hr, hf]
        exact ⟨_, rfl⟩
    have spec2 := runSpec_nested w (some (n, some err)) (some (s, some err)) h1 _
      (flattenLoop w frecur (v :: rest))
      (s + ([] : List Unstructured).length) _ new1 spec1 (by intro hn; simp at hn)
      (by intro k e hn
          simp only [Option.some.injEq, Prod.mk.injEq] at hn
          exact ⟨s, by rw [hn.2]⟩)
      (by intro k hn; simp at hn) hfalse hext
    have spec3 := runSpec_block w _ [] _ s h
      ([Event.decode v true] ++ [Event.kustomize (kustomizeDir w) true]) new1
      (by intro e he; simp at he; rcases he with he | he <;> simp [he, Event.succeeded])
      (by simp [patchCalls]) (by simpa only [List.append_assoc] using spec2)
    exact ⟨_, by simpa using spec3⟩
  · -- nested call succeeds
    intro v rest s h obj raw n h1 hlen hd hk hr hrun ih
    obtain ⟨new1, spec1⟩ := hrec (stringsSplit raw separator)
      (h ++ [Event.decode v true] ++ [Event.kustomize (kustomizeDir w) true])
    rw [hrun] at spec1
    obtain ⟨hc, hn, hf2, hok⟩ := spec1.success n rfl
    obtain ⟨new2, spec2⟩ := ih
    have hh1 : h1 = h ++ ([Event.decode v true] ++ [Event.kustomize (kustomizeDir w) true] ++ new1) := by
      have := spec1.hist
      simp only at this
      rw [this]
      simp only [List.append_assoc]
    have hfl : flattenLoop w frecur (v :: rest)
        = ((frecur (stringsSplit raw separator)).1 ++ (flattenLoop w frecur rest).1,
            (flattenLoop w frecur rest).2) := by
      rcases hf : frecur (stringsSplit raw separator) with ⟨docs, c⟩
      rw [hf] at hc
      simp only at hc
      subst hc
      simp only [flattenLoop, hlen, if_false, hd, hk, if_true, hr, hf]
    have hs : n = (frecur (stringsSplit raw separator)).1.length := by omega
    subst hs
    subst hh1
    have spec3 := runSpec_block w _ (frecur (stringsSplit raw separator)).1 _ s h
      ([Event.decode v true] ++ [Event.kustomize (kustomizeDir w) true] ++ new1) new2
      (allOk_append
        (by intro e he; simp at he; rcases he with he | he <;> simp [he, Event.succeeded]) hok)
      (by rw [patchCalls_append]; simpa [patchCalls] using hf2) spec2
    rw [hfl]
    exact ⟨_, spec3⟩
  · -- REST mapping fails
    intro v rest s h obj err hlen hd hk hm
    have hfl : flattenLoop w frecur (v :: rest)
        = ([] ++ obj :: (flattenLoop w frecur rest).1, (flattenLoop w frecur rest).2) := by
      simp only [flattenLoop, hlen, if_false, hd, hk, List.nil_append]
    refine ⟨[Event.decode v true] ++ [Event.restMapping obj.gvk.GroupKind obj.gvk.version false], ?_⟩
    have := runSpec_failed w (flattenLoop w frecur (v :: rest)) s s err h [Event.decode v true]
      (Event.restMapping obj.gvk.GroupKind obj.gvk.version false)
      (by intro e he; simp at he; simp [he, Event.succeeded])
      ⟨rfl, hm, [], obj, _, by rw [hfl], by simp [patchCalls], rfl, rfl⟩
    simpa only [List.append_assoc] using this
  · -- marshalling fails
    intro v rest s h obj m err hlen hd hk hm hj
    have hfl : flattenLoop w frecur (v :: rest)
        = ([] ++ obj :: (flattenLoop w frecur rest).1, (flattenLoop w frecur rest).2) := by
      simp only [flattenLoop, hlen, if_false, hd, hk, List.nil_append]
    refine ⟨[Event.decode v true] ++ [Event.restMapping obj.gvk.GroupKind obj.gvk.version true]
      ++ [Event.marshal (defaulted m obj) false], ?_⟩
    have := runSpec_failed w (flattenLoop w frecur (v :: rest)) s s err h
      ([Event.decode v true] ++ [Event.restMapping obj.gvk.GroupKind obj.gvk.version true])
      (Event.marshal (defaulted m obj) false)
      (by intro e he; simp at he; rcases he with he | he <;> simp [he, Event.succeeded])
      ⟨rfl, hj, [], obj, _, by rw [hfl], by simp [patchCalls], defaulted_cases m obj⟩
    simpa only [List.append_assoc] using this
  · -- the patch fails
    intro v rest s h obj m data err hlen hd hk hm hj hp
    have hfl : flattenLoop w frecur (v :: rest)
        = ([] ++ obj :: (flattenLoop w frecur rest).1, (flattenLoop w frecur rest).2) := by
      simp only [flattenLoop, hlen, if_false, hd, hk, List.nil_append]
    refine ⟨[Event.decode v true] ++ [Event.restMapping obj.gvk.GroupKind obj.gvk.version true]
      ++ [Event.marshal (defaulted m obj) true] ++ [Event.patch (callFor m obj data) false], ?_⟩
    have := runSpec_failed w (flattenLoop w frecur (v :: rest)) s s err h
      ([Event.decode v true] ++ [Event.restMapping obj.gvk.GroupKind obj.gvk.version true]
        ++ [Event.marshal (defaulted m obj) true])
      (Event.patch (callFor m obj data) false)
      (by intro e he; simp at he; rcases he with he | he | he <;> simp [he, Event.succeeded])
      ⟨rfl, by simpa only [List.append_assoc] using hp, [], obj, _, by rw [hfl],
        by simp [patchCalls], patchFor_callFor w m obj data hj⟩
    simpa only [List.append_assoc] using this
  · -- the patch succeeds
    intro v rest s h obj m data hlen hd hk hm hj hp ih
    obtain ⟨new2, spec2⟩ := ih
    have hfl : flattenLoop w frecur (v :: rest)
        = ([obj] ++ (flattenLoop w frecur rest).1, (flattenLoop w frecur rest).2) := by
      simp only [flattenLoop, hlen, if_false, hd, hk, List.singleton_append]
    have spec3 := runSpec_block w _ [obj] _ s h
      ([Event.decode v true] ++ [Event.restMapping obj.gvk.GroupKind obj.gvk.version true]
        ++ [Event.marshal (defaulted m obj) true] ++ [Event.patch (callFor m obj data) true]) new2
      (by intro e he; simp at he; rcases he with he | he | he | he <;> simp [he, Event.succeeded])
      (by simpa [patchCalls] using patchFor_callFor w m obj data hj)
      (by simpa only [List.append_assoc, List.length_singleton] using spec2)
    rw [hfl]
    exact ⟨_, by simpa only [List.append_assoc] using spec3⟩

/-- A run of `applyYAML` against the flattening of the same spans. -/
theorem applyYAML_spec (w : World) :
    ∀ fuel cs h, ∃ new, RunSpec w (applyYAML w fuel cs h) (flatten w fuel cs) 0 h new := by
  intro fuel
  induction fuel with
  | zero =>
    intro cs h
    refine ⟨[], ?_, ?_, ?_, ?_, ?_, ?_, ?_, ?_⟩
    · simp [applyYAML]
    · intro e he; simp at he
    · intro n hn; simp [applyYAML] at hn
    · exact ⟨[], List.nil_prefix, by simp [patchCalls]⟩
    · intro n err hn; simp [applyYAML] at hn
    · intro hf; simp [flatten] at hf
    · intro _
      exact ⟨by intro e he; simp at he, rfl, by simp [patchCalls, flatten]⟩
    · intro n err hn; simp [applyYAML] at hn
  | succ fuel ih =>
    intro cs h
    exact applyLoop_spec w (applyYAML w fuel) (flatten w fuel) ih cs 0 h

theorem eventNext_mono (w : World) (hist : List Event) (e : Event) (t u : List Event)
    (h : EventNext w hist e t) : EventNext w hist e (t ++ u) := by
  cases e with
  | decode v ok =>
    cases ok with
    | false => trivial
    | true =>
      intro obj hd
      obtain ⟨h1, h2⟩ := h obj hd
      constructor
      · intro hk
        obtain ⟨ok, t1, ht⟩ := h1 hk
        exact ⟨ok, t1 ++ u, by rw [ht]; rfl⟩
      · intro hk
        obtain ⟨ok, t1, ht⟩ := h2 hk
        exact ⟨ok, t1 ++ u, by rw [ht]; rfl⟩
  | kustomize dir ok =>
    cases ok with
    | false => trivial
    | true =>
      intro raw hr
      obtain ⟨fuel, new, t1, h1, h2⟩ := h raw hr
      exact ⟨fuel, new, t1 ++ u, h1, by rw [h2, List.append_assoc]⟩
  | restMapping gk ver ok =>
    cases ok with
    | false => trivial
    | true =>
      obtain ⟨o, ok, t1, ht⟩ := h
      exact ⟨o, ok, t1 ++ u, by rw [ht]; rfl⟩
  | marshal o ok =>
    cases ok with
    | false => trivial
    | true =>
      obtain ⟨c, ok, t1, ht⟩ := h
      exact ⟨c, ok, t1 ++ u, by rw [ht]; rfl⟩
  | patch call ok => trivial

theorem eventsOk_append (w : World) : ∀ (a hist b : List Event),
    EventsOk w hist a → EventsOk w (hist ++ a) b → EventsOk w hist (a ++ b)
  | [], hist, b, _, hb => by simpa using hb
  | e :: t, hist, b, ha, hb => by
    obtain ⟨h1, h2, h3⟩ := ha
    refine ⟨h1, eventNext_mono w hist e t b h2, ?_⟩
    apply eventsOk_append w t (hist ++ [e]) b h3
    simpa [List.append_assoc] using hb

theorem eventsOk_position (w : World) : ∀ (a hist : List Event) (e : Event) (b : List Event),
    EventsOk w hist (a ++ e :: b) → EventOk w (hist ++ a) e ∧ EventNext w (hist ++ a) e b
  | [], hist, e, b, h => by
    obtain ⟨h1, h2, _⟩ := h
    simpa using And.intro h1 h2
  | x :: a, hist, e, b, h => by
    obtain ⟨_, _, h3⟩ := h
    have := eventsOk_position w a (hist ++ [x]) e b h3
    simpa [List.append_assoc] using this


theorem eventOk_decode (w : World) (hist : List Event) (v : String) (obj : Unstructured)
    (hlen : v.length ≠ 0) (hd : w.decode v = .ok obj) : EventOk w hist (Event.decode v true) :=
  ⟨hlen, by simp [hd]⟩

theorem eventNext_decode_kust (w : World) (hist : List Event) (v : String) (obj : Unstructured)
    (hd : w.decode v = .ok obj) (hk : obj.gvk.String = kustomizationString) (ok : Bool)
    (t : List Event) :
    EventNext w hist (Event.decode v true) (Event.kustomize (kustomizeDir w) ok :: t) := by
  intro obj1 hd1
  rw [hd] at hd1
  cases hd1
  exact ⟨fun _ => ⟨ok, t, rfl⟩, fun hne => absurd hk hne⟩

theorem eventNext_decode_doc (w : World) (hist : List Event) (v : String) (obj : Unstructured)
    (hd : w.decode v = .ok obj) (hk : obj.gvk.String ≠ kustomizationString) (ok : Bool)
    (t : List Event) :
    EventNext w hist (Event.decode v true)
      (Event.restMapping obj.gvk.GroupKind obj.gvk.version ok :: t) := by
  intro obj1 hd1
  rw [hd] at hd1
  cases hd1
  exact ⟨fun he => absurd he hk, fun _ => ⟨ok, t, rfl⟩⟩

theorem eventOk_kustomize (w : World) (h : List Event) (v : String) (obj : Unstructured)
    (hd : w.decode v = .ok obj) (hk : obj.gvk.String = kustomizationString) (ok : Bool)
    (hok : ok = true ↔ ∃ raw, w.kustomizeRun (kustomizeDir w) = .ok raw) :
    EventOk w (h ++ [Event.decode v true]) (Event.kustomize (kustomizeDir w) ok) :=
  ⟨rfl, hok, h, v, obj, rfl, hd, hk⟩

theorem eventOk_restMapping (w : World) (h : List Event) (v : String) (obj : Unstructured)
    (hd : w.decode v = .ok obj) (hk : obj.gvk.String ≠ kustomizationString) (ok : Bool)
    (hok : ok = true ↔ ∃ m, w.restMapping (h ++ [Event.decode v true]) obj.gvk.GroupKind
      obj.gvk.version = .ok m) :
    EventOk w (h ++ [Event.decode v true])
      (Event.restMapping obj.gvk.GroupKind obj.gvk.version ok) :=
  ⟨hok, h, v, obj, rfl, hd, hk, rfl, rfl⟩

theorem eventOk_marshal (w : World) (h : List Event) (v : String) (obj : Unstructured)
    (m : RESTMapping) (hd : w.decode v = .ok obj) (hk : obj.gvk.String ≠ kustomizationString)
    (hm : w.restMapping (h ++ [Event.decode v true]) obj.gvk.GroupKind obj.gvk.version = .ok m)
    (ok : Bool) (hok : ok = true ↔ ∃ data, w.marshal (defaulted m obj) = .ok data) :
    EventOk w (h ++ [Event.decode v true]
        ++ [Event.restMapping obj.gvk.GroupKind obj.gvk.version true])
      (Event.marshal (defaulted m obj) ok) :=
  ⟨hok, h, v, obj, m, rfl, hd, hk, hm, rfl⟩

theorem eventOk_patch (w : World) (h : List Event) (v : String) (obj : Unstructured)
    (m : RESTMapping) (data : String) (hd : w.decode v = .ok obj)
    (hk : obj.gvk.String ≠ kustomizationString)
    (hm : w.restMapping (h ++ [Event.decode v true]) obj.gvk.GroupKind obj.gvk.version = .ok m)
    (hj : w.marshal (defaulted m obj) = .ok data) (ok : Bool)
    (hok : ok = true ↔ w.patch (h ++ [Event.decode v true]
        ++ [Event.restMapping obj.gvk.GroupKind obj.gvk.version true]
        ++ [Event.marshal (defaulted m obj) true]) (callFor m obj data) = .ok ()) :
    EventOk w (h ++ [Event.decode v true]
        ++ [Event.restMapping obj.gvk.GroupKind obj.gvk.version true]
        ++ [Event.marshal (defaulted m obj) true])
      (Event.patch (callFor m obj data) ok) :=
  ⟨hok, h, v, obj, m, data, rfl, hd, hk, hm, hj, rfl⟩

/-- The events of the loop of `applyYAML`, the nested calls being calls of
`applyYAML` whose events are as described. -/
theorem applyLoop_events (w : World) (fuel : Nat)
    (hrec : ∀ cs h, ∃ new, (applyYAML w fuel cs h).2 = h ++ new ∧ EventsOk w h new) :
    ∀ cs s h, ∃ new, (applyLoop w (applyYAML w fuel) cs s h).2 = h ++ new ∧ EventsOk w h new := by
  apply applyLoop_cases w (applyYAML w fuel)
    (fun _ _ h res => ∃ new, res.2 = h ++ new ∧ EventsOk w h new)
  · intro s h
    exact ⟨[], by simp, trivial⟩
  · intro v rest s h _ ih
    exact ih
  · intro v rest s h err hlen hd
    exact ⟨[Event.decode v false], rfl, ⟨hlen, by simp [hd]⟩, trivial, trivial⟩
  · intro v rest s h obj err hlen hd hk hr
    refine ⟨[Event.decode v true, Event.kustomize (kustomizeDir w) false], by simp, ?_⟩
    exact ⟨eventOk_decode w h v obj hlen hd, eventNext_decode_kust w h v obj hd hk _ _,
      eventOk_kustomize w h v obj hd hk false (by simp [hr]), trivial, trivial⟩
  · intro v rest s h obj raw h1 hlen hd hk hr hrun
    obtain ⟨new1, hh, hev⟩ := hrec (stringsSplit raw separator)
      (h ++ [Event.decode v true] ++ [Event.kustomize (kustomizeDir w) true])
    refine ⟨[Event.decode v true, Event.kustomize (kustomizeDir w) true] ++ new1, ?_, ?_⟩
    · rw [hrun] at hh; simpa using hh
    · refine ⟨eventOk_decode w h v obj hlen hd, eventNext_decode_kust w h v obj hd hk _ _,
        eventOk_kustomize w h v obj hd hk true (by simp [hr]), ?_, ?_⟩
      · intro raw1 hr1
        rw [hr] at hr1
        cases hr1
        exact ⟨fuel, new1, [], hh, by simp⟩
      · simpa using hev
  · intro v rest s h obj raw n err h1 hlen hd hk hr hrun
    obtain ⟨new1, hh, hev⟩ := hrec (stringsSplit raw separator)
      (h ++ [Event.decode v true] ++ [Event.kustomize (kustomizeDir w) true])
    refine ⟨[Event.decode v true, Event.kustomize (kustomizeDir w) true] ++ new1, ?_, ?_⟩
    · rw [hrun] at hh; simpa using hh
    · refine ⟨eventOk_decode w h v obj hlen hd, eventNext_decode_kust w h v obj hd hk _ _,
        eventOk_kustomize w h v obj hd hk true (by simp [hr]), ?_, ?_⟩
      · intro raw1 hr1
        rw [hr] at hr1
        cases hr1
        exact ⟨fuel, new1, [], hh, by simp⟩
      · simpa using hev
  · intro v rest s h obj raw n h1 hlen hd hk hr hrun ih
    obtain ⟨new1, hh, hev⟩ := hrec (stringsSplit raw separator)
      (h ++ [Event.decode v true] ++ [Event.kustomize (kustomizeDir w) true])
    obtain ⟨new2, hh2, hev2⟩ := ih
    have hh1 : h1 = h ++ [Event.decode v true] ++ [Event.kustomize (kustomizeDir w) true]
        ++ new1 := by
      rw [hrun] at hh; exact hh
    subst hh1
    refine ⟨[Event.decode v true, Event.kustomize (kustomizeDir w) true] ++ (new1 ++ new2),
      ?_, ?_⟩
    · rw [hh2]; simp
    · refine ⟨eventOk_decode w h v obj hlen hd, eventNext_decode_kust w h v obj hd hk _ _,
        eventOk_kustomize w h v obj hd hk true (by simp [hr]), ?_, ?_⟩
      · intro raw1 hr1
        rw [hr] at hr1
        cases hr1
        exact ⟨fuel, new1, new2, hh, rfl⟩
      · exact eventsOk_append w new1 _ new2 hev hev2
  · intro v rest s h obj err hlen hd hk hm
    refine ⟨[Event.decode v true, Event.restMapping obj.gvk.GroupKind obj.gvk.version false],
      by simp, ?_⟩
    exact ⟨eventOk_decode w h v obj hlen hd, eventNext_decode_doc w h v obj hd hk _ _,
      eventOk_restMapping w h v obj hd hk false (by simp [hm]), trivial, trivial⟩
  · intro v rest s h obj m err hlen hd hk hm hj
    refine ⟨[Event.decode v true, Event.restMapping obj.gvk.GroupKind obj.gvk.version true,
      Event.marshal (defaulted m obj) false], by simp, ?_⟩
    exact ⟨eventOk_decode w h v obj hlen hd, eventNext_decode_doc w h v obj hd hk _ _,
      eventOk_restMapping w h v obj hd hk true (by simp [hm]), ⟨_, _, _, rfl⟩,
      eventOk_marshal w h v obj m hd hk hm false (by simp [hj]), trivial, trivial⟩
  · intro v rest s h obj m data err hlen hd hk hm hj hp
    refine ⟨[Event.decode v true, Event.restMapping obj.gvk.GroupKind obj.gvk.version true,
      Event.marshal (defaulted m obj) true, Event.patch (callFor m obj data) false], by simp, ?_⟩
    exact ⟨eventOk_decode w h v obj hlen hd, eventNext_decode_doc w h v obj hd hk _ _,
      eventOk_restMapping w h v obj hd hk true (by simp [hm]), ⟨_, _, _, rfl⟩,
      eventOk_marshal w h v obj m hd hk hm true (by simp [hj]), ⟨_, _, _, rfl⟩,
      eventOk_patch w h v obj m data hd hk hm hj false (by rw [hp]; simp), trivial, trivial⟩
  · intro v rest s h obj m data hlen hd hk hm hj hp ih
    obtain ⟨new2, hh2, hev2⟩ := ih
    refine ⟨[Event.decode v true, Event.restMapping obj.gvk.GroupKind obj.gvk.version true,
      Event.marshal (defaulted m obj) true, Event.patch (callFor m obj data) true] ++ new2,
      ?_, ?_⟩
    · rw [hh2]; simp
    · exact ⟨eventOk_decode w h v obj hlen hd, eventNext_decode_doc w h v obj hd hk _ _,
        eventOk_restMapping w h v obj hd hk true (by simp [hm]), ⟨_, _, _, rfl⟩,
        eventOk_marshal w h v obj m hd hk hm true (by simp [hj]), ⟨_, _, _, rfl⟩,
        eventOk_patch w h v obj m data hd hk hm hj true (by rw [hp]; simp), trivial, hev2⟩

/-- The events of a run of `applyYAML`. -/
theorem applyYAML_events (w : World) :
    ∀ fuel cs h, ∃ new, (applyYAML w fuel cs h).2 = h ++ new ∧ EventsOk w h new := by
  intro fuel
  induction fuel with
  | zero => intro cs h; exact ⟨[], by simp [applyYAML], trivial⟩
  | succ fuel ih => intro cs h; exact applyLoop_events w fuel ih cs 0 h

/-! ## The flattening at growing depth -/

theorem flattenLoop_mono (w : World) (f1 f2 : List String → List Unstructured × Bool)
    (hf : ∀ cs, (f1 cs).1 <+: (f2 cs).1 ∧ ((f1 cs).2 = true → f2 cs = f1 cs)) :
    ∀ cs, (flattenLoop w f1 cs).1 <+: (flattenLoop w f2 cs).1 ∧
      ((flattenLoop w f1 cs).2 = true → flattenLoop w f2 cs = flattenLoop w f1 cs) := by
  intro cs
  induction cs with
  | nil => exact ⟨List.prefix_refl _, fun _ => rfl⟩
  | cons v rest ih =>
    by_cases hlen : v.length = 0
    · simpa only [flattenLoop, hlen, if_true] using ih
    · rcases hd : w.decode v with err | obj
      · simp only [flattenLoop, hlen, if_false, hd]
        exact ⟨List.prefix_refl _, fun _ => trivial⟩
      · by_cases hk : obj.gvk.String = kustomizationString
        · rcases hr : w.kustomizeRun (kustomizeDir w) with err | raw
          · simp only [flattenLoop, hlen, if_false, hd, hk, if_true, hr]
            exact ⟨List.prefix_refl _, fun _ => trivial⟩
          · obtain ⟨hp, he⟩ := hf (stringsSplit raw separator)
            rcases h1 : f1 (stringsSplit raw separator) with ⟨d1, c1⟩
            rw [h1] at hp he
            cases c1 with
            | true =>
              have h2 := he rfl
              simp only [flattenLoop, hlen, if_false, hd, hk, if_true, hr, h1, h2]
              refine ⟨(List.prefix_append_right_inj d1).2 ih.1, ?_⟩
              intro hc
              rw [ih.2 hc]
            | false =>
              rcases h2 : f2 (stringsSplit raw separator) with ⟨d2, c2⟩
              rw [h2] at hp
              cases c2 with
              | true =>
                simp only [flattenLoop, hlen, if_false, hd, hk, if_true, hr, h1, h2]
                exact ⟨hp.trans (List.prefix_append _ _), fun hc => by simp at hc⟩
              | false =>
                simp only [flattenLoop, hlen, if_false, hd, hk, if_true, hr, h1, h2]
                exact ⟨hp, fun hc => by simp at hc⟩
        · simp only [flattenLoop, hlen, if_false, hd, hk]
          refine ⟨?_, ?_⟩
          · obtain ⟨t, ht⟩ := ih.1
            exact ⟨t, by rw [← ht]; rfl⟩
          · intro hc
            rw [ih.2 hc]

theorem flatten_succ (w : World) : ∀ depth cs,
    (flatten w depth cs).1 <+: (flatten w (depth + 1) cs).1 ∧
      ((flatten w depth cs).2 = true → flatten w (depth + 1) cs = flatten w depth cs) := by
  intro depth
  induction depth with
  | zero =>
    intro cs
    exact ⟨List.nil_prefix, fun hc => by simp [flatten] at hc⟩
  | succ depth ih =>
    intro cs
    exact flattenLoop_mono w (flatten w depth) (flatten w (depth + 1)) ih cs

theorem flatten_mono (w : World) (cs : List String) (depth : Nat) : ∀ k,
    (flatten w depth cs).1 <+: (flatten w (depth + k) cs).1 ∧
      ((flatten w depth cs).2 = true → flatten w (depth + k) cs = flatten w depth cs) := by
  intro k
  induction k with
  | zero => exact ⟨List.prefix_refl _, fun _ => rfl⟩
  | succ k ih =>
    obtain ⟨h1, h2⟩ := flatten_succ w (depth + k) cs
    refine ⟨ih.1.trans h1, ?_⟩
    intro hc
    have h3 := ih.2 hc
    rw [← h3] at hc
    exact (h2 hc).trans h3

/-! ## Claims on `applyYAML` -/

theorem failLast_cut {evs : List Event} (hf : FailLast evs) (a : List Event) (e : Event)
    (b : List Event) (hs : evs = a ++ e :: b) (he : e.succeeded = false) : b = [] := by
  by_contra hb
  have hmem : e ∈ evs.dropLast := by
    subst hs
    have : a ++ e :: b = (a ++ [e]) ++ b := by simp
    rw [this, List.dropLast_append_of_ne_nil _ hb]
    simp
  rw [hf e hmem] at he
  exact Bool.noConfusion he

theorem appliedCalls_of_allOk : ∀ (evs : List Event), AllOk evs → appliedCalls evs = patchCalls evs
  | [], _ => rfl
  | e :: t, h => by
    have ht : AllOk t := fun x hx => h x (List.mem_cons_of_mem _ hx)
    have he := h e (List.mem_cons_self _ _)
    cases e with
    | patch call ok =>
      simp only [Event.succeeded] at he
      subst he
      simp [appliedCalls, patchCalls, appliedCalls_of_allOk t ht]
    | decode v ok => simp [appliedCalls, patchCalls, appliedCalls_of_allOk t ht]
    | kustomize d ok => simp [appliedCalls, patchCalls, appliedCalls_of_allOk t ht]
    | restMapping gk ver ok => simp [appliedCalls, patchCalls, appliedCalls_of_allOk t ht]
    | marshal o ok => simp [appliedCalls, patchCalls, appliedCalls_of_allOk t ht]

/-- C3: in every run of `applyYAML` (whatever the nesting allowed, whether it
returns or not) the Patch calls issued are, in order, Patch calls of an initial
segment of the source-order flattening of the documents (at the depth of the
run and at any greater depth), and no event at all, hence no Patch call,
follows an event that failed.  The segment is the one cut at the first failing
step: (a) when the run returns no error, no step failed and the Patch calls
are those of all the documents of the flattening, which is complete; (b) when
the run returns the error `err`, its last event `e` is the only one that
failed, with the error `err`, and either `e` is the decoding or the expansion
on which the flattening ends and the Patch calls before it are those of all
the documents of the flattening, or `e` is the resolution, the marshalling or
the Patch of a document `d` of the flattening and the Patch calls before it are
those of the documents before `d`; (c) when the run does not return within the
nesting allowed, no step failed and the Patch calls are those of all the
documents the flattening reaches at that depth. -/
theorem applyYAML_patches_follow_flattening (w : World) (fuel : Nat) (configs : List String)
    (h : List Event) :
    ∃ new, (applyYAML w fuel configs h).2 = h ++ new ∧
      (∀ k, ∃ pre, pre <+: (flatten w (fuel + k) configs).1 ∧
        List.Forall₂ (PatchFor w) (patchCalls new) pre) ∧
      (∀ a e b, new = a ++ e :: b → e.succeeded = false → b = []) ∧
      (∀ n err, (applyYAML w fuel configs h).1 = some (n, some err) →
        ∃ a e, new = a ++ [e] ∧ e.succeeded = false) ∧
      (∀ n, (applyYAML w fuel configs h).1 = some (n, none) →
        AllOk new ∧ (flatten w fuel configs).2 = true ∧
          List.Forall₂ (PatchFor w) (patchCalls new) (flatten w fuel configs).1) ∧
      (∀ n err, (applyYAML w fuel configs h).1 = some (n, some err) →
        ∃ a e, new = a ++ [e] ∧ AllOk a ∧
          CutBy w (h ++ a) err (flatten w fuel configs) (patchCalls a) e) ∧
      ((applyYAML w fuel configs h).1 = none →
        AllOk new ∧ (flatten w fuel configs).2 = false ∧
          List.Forall₂ (PatchFor w) (patchCalls new) (flatten w fuel configs).1) := by
  obtain ⟨new, spec⟩ := applyYAML_spec w fuel configs h
  refine ⟨new, spec.hist, ?_, ?_, spec.failure, ?_, spec.cut, spec.stopped⟩
  · intro k
    obtain ⟨pre, hp, hf⟩ := spec.issued
    exact ⟨pre, hp.trans (flatten_mono w configs fuel k).1, hf⟩
  · intro a e b hs he
    exact failLast_cut spec.failLast a e b hs he
  · intro n hn
    obtain ⟨h1, _, h3, h4⟩ := spec.success n hn
    exact ⟨h4, h1, h3⟩

/-- C2: when the fully expanded traversal of `configs` exists within the
nesting allowed (every span decodes, every expansion succeeds) with documents
`docs`, and no step of the run fails, `applyYAML` returns no error and the
count `docs.length`, which is the number of Patch calls issued, all of which
succeeded, one for each document of the traversal in order. -/
theorem applyYAML_count_on_success (w : World) (fuel : Nat) (configs : List String)
    (h : List Event) (docs : List Unstructured)
    (hflat : flatten w fuel configs = (docs, true))
    (hok : AllOk ((applyYAML w fuel configs h).2.drop h.length)) :
    ∃ new, applyYAML w fuel configs h = (some (docs.length, none), h ++ new) ∧
      (patchCalls new).length = docs.length ∧ appliedCalls new = patchCalls new ∧
      List.Forall₂ (PatchFor w) (patchCalls new) docs := by
  obtain ⟨new, spec⟩ := applyYAML_spec w fuel configs h
  rw [hflat] at spec
  have hnew : (applyYAML w fuel configs h).2.drop h.length = new := by
    rw [spec.hist]; simp
  rw [hnew] at hok
  rcases hres : applyYAML w fuel configs h with ⟨st, h1⟩
  rw [hres] at spec
  have hh1 : h1 = h ++ new := spec.hist
  rcases st with _ | ⟨n, _ | err⟩
  · exact absurd rfl (spec.returns rfl)
  · obtain ⟨_, hn, hf, _⟩ := spec.success n rfl
    have hn' : n = docs.length := by simpa using hn
    subst hn'
    exact ⟨new, by rw [hh1], hf.length_eq, appliedCalls_of_allOk new hok, hf⟩
  · obtain ⟨a, ev, ha, hev⟩ := spec.failure n err rfl
    have := hok ev (by rw [ha]; simp)
    rw [this] at hev
    exact Bool.noConfusion hev

/-! ## Nesting -/

theorem applyLoop_congr (w : World) (r1 r2 : List String → List Event → ApplyResult)
    (hr : ∀ cs h, (r1 cs h).1 ≠ none → r2 cs h = r1 cs h) :
    ∀ cs s h, (applyLoop w r1 cs s h).1 ≠ none → applyLoop w r2 cs s h = applyLoop w r1 cs s h := by
  apply applyLoop_cases w r1 (fun cs s h res => res.1 ≠ none → applyLoop w r2 cs s h = res)
  · intro s h _; simp only [applyLoop]
  · intro v rest s h hlen ih hne
    simp only [applyLoop, hlen, if_true]
    exact ih hne
  · intro v rest s h err hlen hd _
    simp only [applyLoop, hlen, if_false, hd]
  · intro v rest s h obj err hlen hd hk hr1 _
    simp only [kustomizeDir] at hr1
    simp only [applyLoop, hlen, if_false, hd, hk, if_true, hr1, kustomizeDir]
  · intro v rest s h obj raw h1 hlen hd hk hr1 hrun hne
    exact absurd rfl hne
  · intro v rest s h obj raw n err h1 hlen hd hk hr1 hrun _
    have h2 := hr _ _ (by rw [hrun]; simp)
    rw [hrun] at h2
    simp only [kustomizeDir, separator] at hr1 h2
    simp only [applyLoop, hlen, if_false, hd, hk, if_true, hr1, h2]
  · intro v rest s h obj raw n h1 hlen hd hk hr1 hrun ih hne
    have h2 := hr _ _ (by rw [hrun]; simp)
    rw [hrun] at h2
    simp only [kustomizeDir, separator] at hr1 h2
    simp only [applyLoop, hlen, if_false, hd, hk, if_true, hr1, h2]
    exact ih hne
  · intro v rest s h obj err hlen hd hk hm _
    simp only [applyLoop, hlen, if_false, hd, hk, hm]
  · intro v rest s h obj m err hlen hd hk hm hj _
    simp only [defaulted] at hj
    simp only [applyLoop, hlen, if_false, hd, hk, hm, hj, defaulted]
  · intro v rest s h obj m data err hlen hd hk hm hj hp _
    simp only [defaulted, callFor] at hj hp
    simp only [applyLoop, hlen, if_false, hd, hk, hm, hj, hp, defaulted, callFor]
  · intro v rest s h obj m data hlen hd hk hm hj hp ih hne
    have h3 := ih hne
    simp only [defaulted, callFor] at hj hp h3
    simp only [applyLoop, hlen, if_false, hd, hk, hm, hj, hp, defaulted, callFor]
    exact h3

theorem applyYAML_fuel_succ (w : World) : ∀ fuel cs h,
    (applyYAML w fuel cs h).1 ≠ none → applyYAML w (fuel + 1) cs h = applyYAML w fuel cs h := by
  intro fuel
  induction fuel with
  | zero => intro cs h hne; simp [applyYAML] at hne
  | succ fuel ih =>
    intro cs h hne
    exact applyLoop_congr w (applyYAML w fuel) (applyYAML w (fuel + 1)) ih cs 0 h hne

theorem applyYAML_fuel_add (w : World) (fuel : Nat) (cs : List String) (h : List Event)
    (hne : (applyYAML w fuel cs h).1 ≠ none) :
    ∀ k, applyYAML w (fuel + k) cs h = applyYAML w fuel cs h := by
  intro k
  induction k with
  | zero => rfl
  | succ k ih =>
    have := applyYAML_fuel_succ w (fuel + k) cs h (by rw [ih]; exact hne)
    exact this.trans ih

theorem kustomizeRuns_append (a b : List Event) :
    kustomizeRuns (a ++ b) = kustomizeRuns a ++ kustomizeRuns b := by
  induction a with
  | nil => rfl
  | cons e t ih => cases e <;> simp [kustomizeRuns, ih]

theorem isKustomization_of (w : World) (v : String) (obj : Unstructured) (hlen : v.length ≠ 0)
    (hd : w.decode v = .ok obj) (hk : obj.gvk.String = kustomizationString) :
    isKustomization w v = true := by
  simp [isKustomization, hd, hlen, hk]

theorem isKustomization_of_empty (w : World) (v : String) (hlen : v.length = 0) :
    isKustomization w v = false := by
  unfold isKustomization
  rcases w.decode v with err | obj
  · rfl
  · simp [hlen]

theorem isKustomization_of_error (w : World) (v : String) (err : Err)
    (hd : w.decode v = .error err) : isKustomization w v = false := by
  simp [isKustomization, hd]

theorem isKustomization_of_doc (w : World) (v : String) (obj : Unstructured)
    (hd : w.decode v = .ok obj) (hk : obj.gvk.String ≠ kustomizationString) :
    isKustomization w v = false := by
  simp [isKustomization, hd, hk]

/-- A list without kustomization documents is processed without a nested
call and without a kustomize run. -/
theorem applyLoop_flat (w : World) (recur : List String → List Event → ApplyResult) :
    ∀ cs s h, (∀ v ∈ cs, isKustomization w v = false) →
      (applyLoop w recur cs s h).1 ≠ none ∧
        ∃ new, (applyLoop w recur cs s h).2 = h ++ new ∧ kustomizeRuns new = [] := by
  apply applyLoop_cases w recur (fun cs _ h res => (∀ v ∈ cs, isKustomization w v = false) →
      res.1 ≠ none ∧ ∃ new, res.2 = h ++ new ∧ kustomizeRuns new = [])
  · intro s h _
    exact ⟨by simp, [], by simp, rfl⟩
  · intro v rest s h _ ih hall
    exact ih (fun x hx => hall x (List.mem_cons_of_mem _ hx))
  · intro v rest s h err _ _ _
    exact ⟨by simp, [Event.decode v false], rfl, rfl⟩
  · intro v rest s h obj err hlen hd hk _ hall
    have := hall v (List.mem_cons_self _ _)
    rw [isKustomization_of w v obj hlen hd hk] at this
    exact Bool.noConfusion this
  · intro v rest s h obj raw h1 hlen hd hk _ _ hall
    have := hall v (List.mem_cons_self _ _)
    rw [isKustomization_of w v obj hlen hd hk] at this
    exact Bool.noConfusion this
  · intro v rest s h obj raw n err h1 hlen hd hk _ _ hall
    have := hall v (List.mem_cons_self _ _)
    rw [isKustomization_of w v obj hlen hd hk] at this
    exact Bool.noConfusion this
  · intro v rest s h obj raw n h1 hlen hd hk _ _ _ hall
    have := hall v (List.mem_cons_self _ _)
    rw [isKustomization_of w v obj hlen hd hk] at this
    exact Bool.noConfusion this
  · intro v rest s h obj err _ _ _ _ _
    exact ⟨by simp, [Event.decode v true,
      Event.restMapping obj.gvk.GroupKind obj.gvk.version false], by simp, rfl⟩
  · intro v rest s h obj m err _ _ _ _ _ _
    exact ⟨by simp, [Event.decode v true,
      Event.restMapping obj.gvk.GroupKind obj.gvk.version true,
      Event.marshal (defaulted m obj) false], by simp, rfl⟩
  · intro v rest s h obj m data err _ _ _ _ _ _ _
    exact ⟨by simp, [Event.decode v true,
      Event.restMapping obj.gvk.GroupKind obj.gvk.version true,
      Event.marshal (defaulted m obj) true, Event.patch (callFor m obj data) false],
      by simp, rfl⟩
  · intro v rest s h obj m data _ _ _ _ _ _ ih hall
    obtain ⟨hne, new, hh, hk⟩ := ih (fun x hx => hall x (List.mem_cons_of_mem _ hx))
    refine ⟨hne, [Event.decode v true,
      Event.restMapping obj.gvk.GroupKind obj.gvk.version true,
      Event.marshal (defaulted m obj) true, Event.patch (callFor m obj data) true] ++ new,
      by rw [hh]; simp, ?_⟩
    rw [kustomizeRuns_append, hk]
    rfl

/-- When every nested call returns without a kustomize run of its own, the
loop returns, with at most one kustomize run for each kustomization document
of its list. -/
theorem applyLoop_runs_bound (w : World) (recur : List String → List Event → ApplyResult)
    (hrec : ∀ raw h, w.kustomizeRun (kustomizeDir w) = .ok raw →
      (recur (stringsSplit raw separator) h).1 ≠ none ∧
        ∃ new, (recur (stringsSplit raw separator) h).2 = h ++ new ∧ kustomizeRuns new = []) :
    ∀ cs s h, (applyLoop w recur cs s h).1 ≠ none ∧
      ∃ new, (applyLoop w recur cs s h).2 = h ++ new ∧
        (kustomizeRuns new).length ≤ (cs.filter (isKustomization w)).length := by
  apply applyLoop_cases w recur (fun cs _ h res => res.1 ≠ none ∧
      ∃ new, res.2 = h ++ new ∧
        (kustomizeRuns new).length ≤ (cs.filter (isKustomization w)).length)
  · intro s h
    exact ⟨by simp, [], by simp, by simp [kustomizeRuns]⟩
  · intro v rest s h hlen ih
    obtain ⟨hne, new, hh, hb⟩ := ih
    refine ⟨hne, new, hh, ?_⟩
    simpa [List.filter_cons, isKustomization_of_empty w v hlen] using hb
  · intro v rest s h err _ _
    exact ⟨by simp, [Event.decode v false], rfl, by simp [kustomizeRuns]⟩
  · intro v rest s h obj err hlen hd hk _
    refine ⟨by simp, [Event.decode v true, Event.kustomize (kustomizeDir w) false], by simp, ?_⟩
    simp [kustomizeRuns, List.filter_cons, isKustomization_of w v obj hlen hd hk]
  · intro v rest s h obj raw h1 hlen hd hk hr hrun
    have := (hrec raw
      (h ++ [Event.decode v true] ++ [Event.kustomize (kustomizeDir w) true]) hr).1
    rw [hrun] at this
    exact absurd rfl this
  · intro v rest s h obj raw n err h1 hlen hd hk hr hrun
    obtain ⟨_, new1, hh, hk1⟩ := hrec raw
      (h ++ [Event.decode v true] ++ [Event.kustomize (kustomizeDir w) true]) hr
    rw [hrun] at hh
    refine ⟨by simp, [Event.decode v true, Event.kustomize (kustomizeDir w) true] ++ new1,
      by simpa using hh, ?_⟩
    rw [kustomizeRuns_append, hk1]
    simp [kustomizeRuns, List.filter_cons, isKustomization_of w v obj hlen hd hk]
  · intro v rest s h obj raw n h1 hlen hd hk hr hrun ih
    obtain ⟨_, new1, hh, hk1⟩ := hrec raw
      (h ++ [Event.decode v true] ++ [Event.kustomize (kustomizeDir w) true]) hr
    rw [hrun] at hh
    obtain ⟨hne, new2, hh2, hb⟩ := ih
    have hh1 : h1 = h ++ [Event.decode v true] ++ [Event.kustomize (kustomizeDir w) true]
        ++ new1 := hh
    subst hh1
    refine ⟨hne, [Event.decode v true, Event.kustomize (kustomizeDir w) true] ++ (new1 ++ new2),
      by rw [hh2]; simp, ?_⟩
    rw [kustomizeRuns_append, kustomizeRuns_append, hk1]
    simp only [kustomizeRuns, List.nil_append, List.length_append, List.length_cons,
      List.length_nil, List.filter_cons, isKustomization_of w v obj hlen hd hk, if_true]
    omega
  · intro v rest s h obj err _ _ _ _
    exact ⟨by simp, [Event.decode v true,
      Event.restMapping obj.gvk.GroupKind obj.gvk.version false], by simp,
      by simp [kustomizeRuns]⟩
  · intro v rest s h obj m err _ _ _ _ _
    exact ⟨by simp, [Event.decode v true,
      Event.restMapping obj.gvk.GroupKind obj.gvk.version true,
      Event.marshal (defaulted m obj) false], by simp, by simp [kustomizeRuns]⟩
  · intro v rest s h obj m data err _ _ _ _ _ _
    exact ⟨by simp, [Event.decode v true,
      Event.restMapping obj.gvk.GroupKind obj.gvk.version true,
      Event.marshal (defaulted m obj) true, Event.patch (callFor m obj data) false],
      by simp, by simp [kustomizeRuns]⟩
  · intro v rest s h obj m data _ hd hk _ _ _ ih
    obtain ⟨hne, new, hh, hb⟩ := ih
    refine ⟨hne, [Event.decode v true,
      Event.restMapping obj.gvk.GroupKind obj.gvk.version true,
      Event.marshal (defaulted m obj) true, Event.patch (callFor m obj data) true] ++ new,
      by rw [hh]; simp, ?_⟩
    rw [kustomizeRuns_append]
    simpa [kustomizeRuns, List.filter_cons, isKustomization_of_doc w v obj hd hk] using hb


/-- When no nested call on the kustomize output returns, the loop does not
return on a list that holds a kustomization document after spans that are
always applied. -/
theorem applyLoop_diverges (w : World) (recur : List String → List Event → ApplyResult)
    (raw : String) (hraw : w.kustomizeRun (kustomizeDir w) = .ok raw)
    (hrec : ∀ h, (recur (stringsSplit raw separator) h).1 = none) :
    ∀ cs s h, ∀ pre s0 post, cs = pre ++ s0 :: post → isKustomization w s0 = true →
      (∀ v ∈ pre, AlwaysApplies w v) → (applyLoop w recur cs s h).1 = none := by
  apply applyLoop_cases w recur (fun cs _ _ res => ∀ pre s0 post, cs = pre ++ s0 :: post →
      isKustomization w s0 = true → (∀ v ∈ pre, AlwaysApplies w v) → res.1 = none)
  · intro s h pre s0 post hcs
    simp at hcs
  · intro v rest s h hlen ih pre s0 post hcs hk0 hpre
    cases pre with
    | nil =>
      simp only [List.nil_append, List.cons.injEq] at hcs
      rw [← hcs.1, isKustomization_of_empty w v hlen] at hk0
      exact Bool.noConfusion hk0
    | cons p pre1 =>
      simp only [List.cons_append, List.cons.injEq] at hcs
      exact ih pre1 s0 post hcs.2 hk0 (fun x hx => hpre x (List.mem_cons_of_mem _ hx))
  · intro v rest s h err hlen hd pre s0 post hcs hk0 hpre
    cases pre with
    | nil =>
      simp only [List.nil_append, List.cons.injEq] at hcs
      rw [← hcs.1, isKustomization_of_error w v err hd] at hk0
      exact Bool.noConfusion hk0
    | cons p pre1 =>
      simp only [List.cons_append, List.cons.injEq] at hcs
      rcases hpre p (List.mem_cons_self _ _) with h0 | ⟨obj, hd1, _⟩
      · rw [← hcs.1] at h0; exact absurd h0 hlen
      · rw [← hcs.1, hd] at hd1; cases hd1
  · intro v rest s h obj err _ _ _ hr
    rw [hraw] at hr
    cases hr
  · intro v rest s h obj raw1 h1 _ _ _ _ _ pre s0 post _ _ _
    rfl
  · intro v rest s h obj raw1 n err h1 _ _ _ hr hrun
    rw [hraw] at hr
    cases hr
    have := hrec (h ++ [Event.decode v true] ++ [Event.kustomize (kustomizeDir w) true])
    rw [hrun] at this
    cases this
  · intro v rest s h obj raw1 n h1 _ _ _ hr hrun
    rw [hraw] at hr
    cases hr
    have := hrec (h ++ [Event.decode v true] ++ [Event.kustomize (kustomizeDir w) true])
    rw [hrun] at this
    cases this
  · intro v rest s h obj err hlen hd hk hm pre s0 post hcs hk0 hpre
    cases pre with
    | nil =>
      simp only [List.nil_append, List.cons.injEq] at hcs
      rw [← hcs.1, isKustomization_of_doc w v obj hd hk] at hk0
      exact Bool.noConfusion hk0
    | cons p pre1 =>
      simp only [List.cons_append, List.cons.injEq] at hcs
      rcases hpre p (List.mem_cons_self _ _) with h0 | ⟨obj1, hd1, hks | hall⟩
      · rw [← hcs.1] at h0; exact absurd h0 hlen
      · rw [← hcs.1, hd] at hd1; cases hd1; exact absurd hks hk
      · rw [← hcs.1, hd] at hd1; cases hd1
        obtain ⟨m, hm1, _⟩ := hall (h ++ [Event.decode v true])
        rw [hm] at hm1; cases hm1
  · intro v rest s h obj m err hlen hd hk hm hj pre s0 post hcs hk0 hpre
    cases pre with
    | nil =>
      simp only [List.nil_append, List.cons.injEq] at hcs
      rw [← hcs.1, isKustomization_of_doc w v obj hd hk] at hk0
      exact Bool.noConfusion hk0
    | cons p pre1 =>
      simp only [List.cons_append, List.cons.injEq] at hcs
      rcases hpre p (List.mem_cons_self _ _) with h0 | ⟨obj1, hd1, hks | hall⟩
      · rw [← hcs.1] at h0; exact absurd h0 hlen
      · rw [← hcs.1, hd] at hd1; cases hd1; exact absurd hks hk
      · rw [← hcs.1, hd] at hd1; cases hd1
        obtain ⟨m1, hm1, data, hj1, _⟩ := hall (h ++ [Event.decode v true])
        rw [hm] at hm1; cases hm1
        rw [hj] at hj1; cases hj1
  · intro v rest s h obj m data err hlen hd hk hm hj hp pre s0 post hcs hk0 hpre
    cases pre with
    | nil =>
      simp only [List.nil_append, List.cons.injEq] at hcs
      rw [← hcs.1, isKustomization_of_doc w v obj hd hk] at hk0
      exact Bool.noConfusion hk0
    | cons p pre1 =>
      simp only [List.cons_append, List.cons.injEq] at hcs
      rcases hpre p (List.mem_cons_self _ _) with h0 | ⟨obj1, hd1, hks | hall⟩
      · rw [← hcs.1] at h0; exact absurd h0 hlen
      · rw [← hcs.1, hd] at hd1; cases hd1; exact absurd hks hk
      · rw [← hcs.1, hd] at hd1; cases hd1
        obtain ⟨m1, hm1, data1, hj1, hp1⟩ := hall (h ++ [Event.decode v true])
        rw [hm] at hm1; cases hm1
        rw [hj] at hj1; cases hj1
        rw [hp1] at hp; cases hp
  · intro v rest s h obj m data hlen hd hk hm hj hp ih pre s0 post hcs hk0 hpre
    cases pre with
    | nil =>
      simp only [List.nil_append, List.cons.injEq] at hcs
      rw [← hcs.1, isKustomization_of_doc w v obj hd hk] at hk0
      exact Bool.noConfusion hk0
    | cons p pre1 =>
      simp only [List.cons_append, List.cons.injEq] at hcs
      exact ih pre1 s0 post hcs.2 hk0 (fun x hx => hpre x (List.mem_cons_of_mem _ hx))

/-- No call of `applyYAML` on a kustomize output that holds a kustomization
document after spans that are always applied returns, whatever the nesting
allowed. -/
theorem applyYAML_output_diverges (w : World) (raw : String)
    (hraw : w.kustomizeRun (kustomizeDir w) = .ok raw) (pre : List String) (s0 : String)
    (post : List String) (hs : stringsSplit raw separator = pre ++ s0 :: post)
    (hk0 : isKustomization w s0 = true) (hpre : ∀ v ∈ pre, AlwaysApplies w v) :
    ∀ fuel h, (applyYAML w fuel (stringsSplit raw separator) h).1 = none := by
  intro fuel
  induction fuel with
  | zero => intro h; rfl
  | succ fuel ih =>
    intro h
    exact applyLoop_diverges w (applyYAML w fuel) raw hraw ih _ 0 h pre s0 post hs hk0 hpre

/-- C2, on the samples of the specification: two plain documents give the
count 2, one kustomization document expanding to three resources gives 3. -/
theorem applyYAML_count_on_success_witness :
    (flatten worldThree 1 [docConfigMap "a", docConfigMap "b"]
        = ([objConfigMap "a", objConfigMap "b"], true) ∧
      ∃ new, applyYAML worldThree 1 [docConfigMap "a", docConfigMap "b"] []
          = (some (2, none), [] ++ new) ∧
        (patchCalls new).length = 2 ∧ appliedCalls new = patchCalls new ∧
        List.Forall₂ (PatchFor worldThree) (patchCalls new) [objConfigMap "a", objConfigMap "b"]) ∧
    (flatten worldThree 2 [docKustomization]
        = ([objConfigMap "a", objConfigMap "b", objConfigMap "c"], true) ∧
      ∃ new, applyYAML worldThree 2 [docKustomization] [] = (some (3, none), [] ++ new) ∧
        (patchCalls new).length = 3 ∧ appliedCalls new = patchCalls new ∧
        List.Forall₂ (PatchFor worldThree) (patchCalls new)
          [objConfigMap "a", objConfigMap "b", objConfigMap "c"]) :=
  ⟨⟨by decide, applyYAML_count_on_success worldThree 1 [docConfigMap "a", docConfigMap "b"] []
      [objConfigMap "a", objConfigMap "b"] (by decide) (by unfold AllOk; decide)⟩,
   ⟨by decide, applyYAML_count_on_success worldThree 2 [docKustomization] []
      [objConfigMap "a", objConfigMap "b", objConfigMap "c"] (by decide)
      (by unfold AllOk; decide)⟩⟩

/-- C1 fails on the code: for one kustomization document whose expansion holds
a ConfigMap the cluster accepts followed by one it refuses, `applyYAML` returns
the error with the count 0, although one Patch call returned without error
before the failure. -/
theorem applyYAML_failed_expansion_count :
    (applyYAML worldPartial 2 [docKustomization] []).1 = some (0, some "forbidden") ∧
      (appliedCalls (applyYAML worldPartial 2 [docKustomization] []).2).length = 1 := by
  decide

/-- C10: (1) every kustomize run of every run of `applyYAML`, at any depth, is
given the directory of `PLUGIN_YAML` and nothing else, and when the build of
that directory succeeds with `raw` it is followed by the events of a nested
call on the spans of `raw`, the same at every depth; (2) when these spans hold
no kustomization document, `applyYAML` returns with calls nested one deep
(fuel 2: the outer call and one level below), the same with any deeper
nesting allowed, and runs kustomize at most once for each kustomization
document of `configs`; (3) when these spans hold a kustomization document
after spans that are always applied, no call on a list that meets a
kustomization document the same way returns, whatever the nesting allowed. -/
theorem kustomize_expansion_depth (w : World) :
    (∀ fuel configs h, ∃ new, (applyYAML w fuel configs h).2 = h ++ new ∧
      kustomizeRuns new = List.replicate (kustomizeRuns new).length (kustomizeDir w) ∧
      ∀ a dir ok b, new = a ++ Event.kustomize dir ok :: b →
        dir = kustomizeDir w ∧
        ∀ raw, w.kustomizeRun (kustomizeDir w) = .ok raw →
          ok = true ∧ ∃ f new1 t,
            (applyYAML w f (stringsSplit raw separator)
              (h ++ a ++ [Event.kustomize dir ok])).2
              = h ++ a ++ [Event.kustomize dir ok] ++ new1 ∧ b = new1 ++ t) ∧
    ((∀ raw, w.kustomizeRun (kustomizeDir w) = .ok raw →
        ∀ v ∈ stringsSplit raw separator, isKustomization w v = false) →
      ∀ configs h, ∃ r new, applyYAML w 2 configs h = (some r, h ++ new) ∧
        (∀ k, applyYAML w (2 + k) configs h = applyYAML w 2 configs h) ∧
        (kustomizeRuns new).length ≤ (configs.filter (isKustomization w)).length) ∧
    (∀ raw pre s0 post, w.kustomizeRun (kustomizeDir w) = .ok raw →
      stringsSplit raw separator = pre ++ s0 :: post → isKustomization w s0 = true →
      (∀ v ∈ pre, AlwaysApplies w v) →
      ∀ cpre c0 cpost, isKustomization w c0 = true → (∀ v ∈ cpre, AlwaysApplies w v) →
        ∀ fuel h, (applyYAML w fuel (cpre ++ c0 :: cpost) h).1 = none) := by
  refine ⟨?_, ?_, ?_⟩
  · intro fuel configs h
    obtain ⟨new, hh, hev⟩ := applyYAML_events w fuel configs h
    have hpos : ∀ a dir ok b, new = a ++ Event.kustomize dir ok :: b →
        dir = kustomizeDir w ∧
        ∀ raw, w.kustomizeRun (kustomizeDir w) = .ok raw →
          ok = true ∧ ∃ f new1 t,
            (applyYAML w f (stringsSplit raw separator)
              (h ++ a ++ [Event.kustomize dir ok])).2
              = h ++ a ++ [Event.kustomize dir ok] ++ new1 ∧ b = new1 ++ t := by
      intro a dir ok b hs
      rw [hs] at hev
      obtain ⟨⟨hdir, hok, _⟩, hnext⟩ := eventsOk_position w a h _ b hev
      refine ⟨hdir, ?_⟩
      intro raw hraw
      have hok1 : ok = true := hok.2 ⟨raw, by rw [hdir]; exact hraw⟩
      subst hok1
      exact ⟨rfl, hnext raw (by rw [hdir]; exact hraw)⟩
    refine ⟨new, hh, ?_, hpos⟩
    apply List.eq_replicate_of_mem
    intro d hd
    have : ∀ (evs : List Event), d ∈ kustomizeRuns evs → ∃ a ok b, evs = a ++ Event.kustomize d ok :: b := by
      intro evs
      induction evs with
      | nil => intro hm; simp [kustomizeRuns] at hm
      | cons e t ih =>
        intro hm
        cases e with
        | kustomize d1 ok1 =>
          simp only [kustomizeRuns, List.mem_cons] at hm
          rcases hm with hm | hm
          · subst hm; exact ⟨[], ok1, t, rfl⟩
          · obtain ⟨a, ok, b, hab⟩ := ih hm
            exact ⟨Event.kustomize d1 ok1 :: a, ok, b, by rw [hab]; rfl⟩
        | decode v ok1 =>
          obtain ⟨a, ok, b, hab⟩ := ih (by simpa [kustomizeRuns] using hm)
          exact ⟨_ :: a, ok, b, by rw [hab]; rfl⟩
        | restMapping gk ver ok1 =>
          obtain ⟨a, ok, b, hab⟩ := ih (by simpa [kustomizeRuns] using hm)
          exact ⟨_ :: a, ok, b, by rw [hab]; rfl⟩
        | marshal o ok1 =>
          obtain ⟨a, ok, b, hab⟩ := ih (by simpa [kustomizeRuns] using hm)
          exact ⟨_ :: a, ok, b, by rw [hab]; rfl⟩
        | patch c ok1 =>
          obtain ⟨a, ok, b, hab⟩ := ih (by simpa [kustomizeRuns] using hm)
          exact ⟨_ :: a, ok, b, by rw [hab]; rfl⟩
    obtain ⟨a, ok, b, hab⟩ := this new hd
    exact (hpos a d ok b hab).1
  · intro hno configs h
    have hinner : ∀ raw h1, w.kustomizeRun (kustomizeDir w) = .ok raw →
        (applyYAML w 1 (stringsSplit raw separator) h1).1 ≠ none ∧
          ∃ new, (applyYAML w 1 (stringsSplit raw separator) h1).2 = h1 ++ new ∧
            kustomizeRuns new = [] := by
      intro raw h1 hraw
      exact applyLoop_flat w (applyYAML w 0) _ 0 h1 (hno raw hraw)
    obtain ⟨hne, new, hh, hb⟩ := applyLoop_runs_bound w (applyYAML w 1) hinner configs 0 h
    have hne2 : (applyYAML w 2 configs h).1 ≠ none := hne
    rcases hres : applyYAML w 2 configs h with ⟨st, h1⟩
    have hh' : (applyYAML w 2 configs h).2 = h ++ new := hh
    rw [hres] at hne2 hh'
    rcases st with _ | r
    · exact absurd rfl hne2
    · refine ⟨r, new, ?_, ?_, hb⟩
      · simp only at hh'; rw [hh']
      · intro k
        rw [← hres]
        exact applyYAML_fuel_add w 2 configs h (by rw [hres]; simp) k
  · intro raw pre s0 post hraw hs hk0 hpre cpre c0 cpost hc0 hcpre fuel h
    cases fuel with
    | zero => rfl
    | succ fuel =>
      exact applyLoop_diverges w (applyYAML w fuel) raw hraw
        (applyYAML_output_diverges w raw hraw pre s0 post hs hk0 hpre fuel)
        _ 0 h cpre c0 cpost rfl hc0 hcpre

/-- C10 on samples: the build of `worldThree` gives three ConfigMaps, and
`applyYAML` returns with calls nested one deep; that of `worldCycle` gives a
ConfigMap and a kustomization document, and `applyYAML` never returns. -/
theorem kustomize_expansion_depth_witness :
    (∃ r new, applyYAML worldThree 2 [docKustomization, docConfigMap "a"] [] = (some r, [] ++ new) ∧
      (∀ k, applyYAML worldThree (2 + k) [docKustomization, docConfigMap "a"] []
        = applyYAML worldThree 2 [docKustomization, docConfigMap "a"] []) ∧
      (kustomizeRuns new).length
        ≤ ([docKustomization, docConfigMap "a"].filter (isKustomization worldThree)).length) ∧
    (∀ fuel h, (applyYAML worldCycle fuel ([docConfigMap "b"] ++ docKustomization :: []) h).1
      = none) :=
  ⟨(kustomize_expansion_depth worldThree).2.1
      (by intro raw hraw; cases hraw; decide) [docKustomization, docConfigMap "a"] [],
    (kustomize_expansion_depth worldCycle).2.2
      (docConfigMap "a" ++ "\n---\n" ++ docKustomization) [docConfigMap "a"] docKustomization []
      rfl (by decide) (by decide)
      (by
        intro v hv
        rw [List.mem_singleton] at hv
        subst hv
        exact Or.inr ⟨objConfigMap "a", rfl, Or.inr (fun _ =>
          ⟨{ resource := { group := "", version := "v1", resource := "configmaps" },
             scopeName := RESTScopeNameNamespace }, rfl, "default/a", rfl,
            fun _ => rfl⟩)⟩)
      [docConfigMap "b"] docKustomization [] (by decide)
      (by
        intro v hv
        rw [List.mem_singleton] at hv
        subst hv
        exact Or.inr ⟨objConfigMap "b", rfl, Or.inr (fun _ =>
          ⟨{ resource := { group := "", version := "v1", resource := "configmaps" },
             scopeName := RESTScopeNameNamespace }, rfl, "default/b", rfl,
            fun _ => rfl⟩)⟩)⟩


theorem kustomizationGVK_string (gvk : GroupVersionKind) (h : gvk = kustomizationGVK) :
    gvk.String = kustomizationString := by
  subst h
  decide

/-- The loop from `k + s` gives the result of the loop from `s` with `k` added
to the count. -/
theorem applyLoop_shift (w : World) (recur : List String → List Event → ApplyResult) :
    ∀ cs s h, ∀ k, applyLoop w recur cs (k + s) h = addCount k (applyLoop w recur cs s h) := by
  apply applyLoop_cases w recur
    (fun cs s h res => ∀ k, applyLoop w recur cs (k + s) h = addCount k res)
  · intro s h k; rfl
  · intro v rest s h hlen ih k
    simp only [applyLoop, hlen, if_true]
    exact ih k
  · intro v rest s h err hlen hd k
    simp only [applyLoop, hlen, if_false, hd]
    rfl
  · intro v rest s h obj err hlen hd hk hr k
    simp only [kustomizeDir] at hr
    simp only [applyLoop, hlen, if_false, hd, hk, if_true, hr, kustomizeDir]
    rfl
  · intro v rest s h obj raw h1 hlen hd hk hr hrun k
    simp only [kustomizeDir, separator] at hr hrun
    simp only [applyLoop, hlen, if_false, hd, hk, if_true, hr, hrun]
    rfl
  · intro v rest s h obj raw n err h1 hlen hd hk hr hrun k
    simp only [kustomizeDir, separator] at hr hrun
    simp only [applyLoop, hlen, if_false, hd, hk, if_true, hr, hrun]
    rfl
  · intro v rest s h obj raw n h1 hlen hd hk hr hrun ih k
    simp only [kustomizeDir, separator] at hr hrun
    simp only [applyLoop, hlen, if_false, hd, hk, if_true, hr, hrun]
    rw [Nat.add_assoc]
    exact ih k
  · intro v rest s h obj err hlen hd hk hm k
    simp only [applyLoop, hlen, if_false, hd, hk, hm]
    rfl
  · intro v rest s h obj m err hlen hd hk hm hj k
    simp only [defaulted] at hj
    simp only [applyLoop, hlen, if_false, hd, hk, hm, hj, defaulted]
    rfl
  · intro v rest s h obj m data err hlen hd hk hm hj hp k
    simp only [defaulted, callFor] at hj hp
    simp only [applyLoop, hlen, if_false, hd, hk, hm, hj, hp, defaulted, callFor]
    rfl
  · intro v rest s h obj m data hlen hd hk hm hj hp ih k
    have h3 := ih k
    simp only [defaulted, callFor] at hj hp h3
    simp only [applyLoop, hlen, if_false, hd, hk, hm, hj, hp, defaulted, callFor]
    rw [Nat.add_assoc]
    exact h3

/-- The loop over `pre ++ rest` is the loop over `pre` followed, when it ends
without error, by the loop over `rest`. -/
theorem applyLoop_append (w : World) (recur : List String → List Event → ApplyResult)
    (rest : List String) :
    ∀ pre s h, applyLoop w recur (pre ++ rest) s h =
      match applyLoop w recur pre s h with
      | (some (n, none), h1) => applyLoop w recur rest n h1
      | (some (n, some err), h1) => (some (n, some err), h1)
      | (none, h1) => (none, h1) := by
  apply applyLoop_cases w recur
    (fun pre s h res => applyLoop w recur (pre ++ rest) s h =
      match res with
      | (some (n, none), h1) => applyLoop w recur rest n h1
      | (some (n, some err), h1) => (some (n, some err), h1)
      | (none, h1) => (none, h1))
  · intro s h; rfl
  · intro v pre s h hlen ih
    simp only [List.cons_append, applyLoop, hlen, if_true]
    exact ih
  · intro v pre s h err hlen hd
    simp only [List.cons_append, applyLoop, hlen, if_false, hd]
  · intro v pre s h obj err hlen hd hk hr
    simp only [kustomizeDir] at hr
    simp only [List.cons_append, applyLoop, hlen, if_false, hd, hk, if_true, hr, kustomizeDir]
  · intro v pre s h obj raw h1 hlen hd hk hr hrun
    simp only [kustomizeDir, separator] at hr hrun
    simp only [List.cons_append, applyLoop, hlen, if_false, hd, hk, if_true, hr, hrun]
  · intro v pre s h obj raw n err h1 hlen hd hk hr hrun
    simp only [kustomizeDir, separator] at hr hrun
    simp only [List.cons_append, applyLoop, hlen, if_false, hd, hk, if_true, hr, hrun]
  · intro v pre s h obj raw n h1 hlen hd hk hr hrun ih
    simp only [kustomizeDir, separator] at hr hrun
    simp only [List.cons_append, applyLoop, hlen, if_false, hd, hk, if_true, hr, hrun]
    exact ih
  · intro v pre s h obj err hlen hd hk hm
    simp only [List.cons_append, applyLoop, hlen, if_false, hd, hk, hm]
  · intro v pre s h obj m err hlen hd hk hm hj
    simp only [defaulted] at hj
    simp only [List.cons_append, applyLoop, hlen, if_false, hd, hk, hm, hj, defaulted]
  · intro v pre s h obj m data err hlen hd hk hm hj hp
    simp only [defaulted, callFor] at hj hp
    simp only [List.cons_append, applyLoop, hlen, if_false, hd, hk, hm, hj, hp, defaulted,
      callFor]
  · intro v pre s h obj m data hlen hd hk hm hj hp ih
    simp only [defaulted, callFor] at hj hp ih
    simp only [List.cons_append, applyLoop, hlen, if_false, hd, hk, hm, hj, hp, defaulted,
      callFor]
    exact ih

/-- C4: (1) in every run of `applyYAML`, at every depth, the decoding of a
document whose `GroupVersionKind` is the kustomization sentinel is followed at
once by a kustomize run on the directory of `PLUGIN_YAML`; the REST mapper is
never asked for the sentinel; and every Patch call ends a block that starts
with the decoding of a document whose `GroupVersionKind` is not the sentinel.
(2) What a call does at a sentinel document `v` that it reaches (the spans
`pre` before it are processed without error, with count `n0` and history
`h0`): it decodes `v` and runs kustomize, and nothing else for `v`; when the
build fails it returns that error with the count `n0`; when the build gives
`raw` it calls `applyYAML` on the spans of `raw`, and, as that call does not
return, fails with `err`, or returns the count `n1`, it does not return,
returns `err` with the count `n0`, or goes on with the spans `rest` after `v`
from the history left by the nested call, `n0 + n1` being added to their
count. -/
theorem kustomization_routed_to_expander (w : World) (fuel : Nat) (configs : List String)
    (h : List Event) :
    (∃ new, (applyYAML w fuel configs h).2 = h ++ new ∧
      (∀ a v ok b obj, new = a ++ Event.decode v ok :: b → w.decode v = .ok obj →
        obj.gvk = kustomizationGVK →
        ∃ ok1 t, b = Event.kustomize (kustomizeDir w) ok1 :: t) ∧
      (∀ gk ver ok, Event.restMapping gk ver ok ∈ new →
        ¬ (gk = kustomizationGVK.GroupKind ∧ ver = kustomizationGVK.version)) ∧
      (∀ a call ok b, new = a ++ Event.patch call ok :: b →
        ∃ pre v obj m data, h ++ a = pre ++ [Event.decode v true]
            ++ [Event.restMapping obj.gvk.GroupKind obj.gvk.version true]
            ++ [Event.marshal (defaulted m obj) true] ∧
          w.decode v = .ok obj ∧ obj.gvk ≠ kustomizationGVK ∧ call = callFor m obj data)) ∧
    (∀ pre v rest n0 h0 obj, applyYAML w (fuel + 1) pre h = (some (n0, none), h0) →
      v.length ≠ 0 → w.decode v = .ok obj → obj.gvk = kustomizationGVK →
      applyYAML w (fuel + 1) (pre ++ v :: rest) h =
        match w.kustomizeRun (kustomizeDir w) with
        | .error err =>
          (some (n0, some err),
            h0 ++ [Event.decode v true] ++ [Event.kustomize (kustomizeDir w) false])
        | .ok raw =>
          match applyYAML w fuel (stringsSplit raw separator)
              (h0 ++ [Event.decode v true] ++ [Event.kustomize (kustomizeDir w) true]) with
          | (none, h1) => (none, h1)
          | (some (_, some err), h1) => (some (n0, some err), h1)
          | (some (n1, none), h1) => addCount (n0 + n1) (applyYAML w (fuel + 1) rest h1)) := by
  refine ⟨?_, ?_⟩
  · obtain ⟨new, hh, hev⟩ := applyYAML_events w fuel configs h
    refine ⟨new, hh, ?_, ?_, ?_⟩
    · intro a v ok b obj hs hd hk
      have hev1 := hev
      rw [hs] at hev1
      obtain ⟨⟨_, hok⟩, hnext⟩ := eventsOk_position w a h _ b hev1
      have hok1 : ok = true := hok.2 ⟨obj, hd⟩
      subst hok1
      exact (hnext obj hd).1 (kustomizationGVK_string obj.gvk hk)
    · intro gk ver ok hmem
      obtain ⟨a, b, hs⟩ := List.append_of_mem hmem
      have hev1 := hev
      rw [hs] at hev1
      obtain ⟨⟨_, pre, v, obj, _, _, hk, hgk, hver⟩, _⟩ := eventsOk_position w a h _ b hev1
      rintro ⟨h1, h2⟩
      apply hk
      apply kustomizationGVK_string
      rw [hgk] at h1
      rw [hver] at h2
      have hg : obj.gvk.group = kustomizationGVK.group := congrArg GroupKind.group h1
      have hkd : obj.gvk.kind = kustomizationGVK.kind := congrArg GroupKind.kind h1
      cases hgvk : obj.gvk with
      | mk g ver1 k =>
        rw [hgvk] at hg hkd h2
        simp only at hg hkd h2
        rw [hg, hkd, h2]
    · intro a call ok b hs
      have hev1 := hev
      rw [hs] at hev1
      obtain ⟨⟨_, pre, v, obj, m, data, hhist, hd, hk, _, _, hcall⟩, _⟩ :=
        eventsOk_position w a h _ b hev1
      exact ⟨pre, v, obj, m, data, hhist, hd,
        fun heq => hk (kustomizationGVK_string obj.gvk heq), hcall⟩
  · intro pre v rest n0 h0 obj hpre hlen hd hk
    have hks := kustomizationGVK_string obj.gvk hk
    have hstep : applyYAML w (fuel + 1) (pre ++ v :: rest) h
        = applyLoop w (applyYAML w fuel) (v :: rest) n0 h0 := by
      show applyLoop w (applyYAML w fuel) (pre ++ v :: rest) 0 h = _
      rw [applyLoop_append]
      have hpre' : applyLoop w (applyYAML w fuel) pre 0 h = (some (n0, none), h0) := hpre
      rw [hpre']
    rw [hstep]
    rcases hr : w.kustomizeRun (kustomizeDir w) with err | raw
    · simp only
      simp only [kustomizeDir] at hr
      simp only [applyLoop, hlen, if_false, hd, hks, if_true, hr, kustomizeDir]
    · simp only
      rcases hrun : applyYAML w fuel (stringsSplit raw separator)
          (h0 ++ [Event.decode v true] ++ [Event.kustomize (kustomizeDir w) true]) with ⟨st, h1⟩
      simp only [kustomizeDir, separator] at hr hrun
      rcases st with _ | ⟨n1, _ | err⟩
      · simp only [applyLoop, hlen, if_false, hd, hks, if_true, hr, hrun]
      · simp only [applyLoop, hlen, if_false, hd, hks, if_true, hr, hrun]
        have := applyLoop_shift w (applyYAML w fuel) rest 0 h1 (n0 + n1)
        simpa using this
      · simp only [applyLoop, hlen, if_false, hd, hks, if_true, hr, hrun]

/-- C4 on a sample: a kustomization document at the head of the list, whose
build gives three ConfigMaps, followed by one ConfigMap. -/
theorem kustomization_routed_to_expander_witness :
    (applyYAML worldThree 2 ([] ++ docKustomization :: [docConfigMap "a"]) [] =
      match worldThree.kustomizeRun (kustomizeDir worldThree) with
      | .error err =>
        (some (0, some err),
          [] ++ [Event.decode docKustomization true]
            ++ [Event.kustomize (kustomizeDir worldThree) false])
      | .ok raw =>
        match applyYAML worldThree 1 (stringsSplit raw separator)
            ([] ++ [Event.decode docKustomization true]
              ++ [Event.kustomize (kustomizeDir worldThree) true]) with
        | (none, h1) => (none, h1)
        | (some (_, some err), h1) => (some (0, some err), h1)
        | (some (n1, none), h1) =>
          addCount (0 + n1) (applyYAML worldThree 2 [docConfigMap "a"] h1)) ∧
      (applyYAML worldThree 2 [docKustomization, docConfigMap "a"] []).1 = some (4, none) :=
  ⟨(kustomization_routed_to_expander worldThree 1 [] []).2 [] docKustomization
    [docConfigMap "a"] 0 []
    { gvk := kustomizationGVK, metaNamespace := "", metaName := "", content := "resources" }
    rfl (by decide) rfl rfl, by decide⟩

/-- C5: in every run of `applyYAML`, at every depth, (1) a REST mapping that
succeeds is followed by the marshalling of the object, and a marshalling that
succeeds by the Patch; (2) every Patch call is the one of a decoded document
`obj` that is not a kustomization document, under the mapping `m` the REST
mapper returned for it: when `m` is namespace-scoped and `obj` has no namespace
the call targets namespace `default` and carries the serialization of `obj`
with namespace `default`; when `m` is namespace-scoped and `obj` has a
namespace the call targets that namespace and carries the serialization of
`obj` unchanged; when `m` is not namespace-scoped the call targets no
namespace and carries the serialization of `obj` unchanged. -/
theorem patch_namespace_defaulting (w : World) (fuel : Nat) (configs : List String)
    (h : List Event) :
    ∃ new, (applyYAML w fuel configs h).2 = h ++ new ∧
      (∀ a gk ver b, new = a ++ Event.restMapping gk ver true :: b →
        ∃ o ok t, b = Event.marshal o ok :: t ∧ (ok = true ↔ ∃ data, w.marshal o = .ok data) ∧
          (ok = true → ∃ call ok2 t2, t = Event.patch call ok2 :: t2)) ∧
      (∀ a call ok b, new = a ++ Event.patch call ok :: b →
        ∃ pre v obj m, w.decode v = .ok obj ∧ obj.gvk.String ≠ kustomizationString ∧
          w.restMapping (pre ++ [Event.decode v true]) obj.gvk.GroupKind obj.gvk.version
            = .ok m ∧
          call.resource = m.resource ∧ call.name = obj.GetName ∧
          (m.scopeName = RESTScopeNameNamespace → obj.GetNamespace = "" →
            call.namespace? = some "default" ∧
            w.marshal (obj.SetNamespace "default") = .ok call.data ∧
            h ++ a = pre ++ [Event.decode v true]
              ++ [Event.restMapping obj.gvk.GroupKind obj.gvk.version true]
              ++ [Event.marshal (obj.SetNamespace "default") true]) ∧
          (m.scopeName = RESTScopeNameNamespace → obj.GetNamespace ≠ "" →
            call.namespace? = some obj.GetNamespace ∧ w.marshal obj = .ok call.data ∧
            h ++ a = pre ++ [Event.decode v true]
              ++ [Event.restMapping obj.gvk.GroupKind obj.gvk.version true]
              ++ [Event.marshal obj true]) ∧
          (m.scopeName ≠ RESTScopeNameNamespace →
            call.namespace? = none ∧ w.marshal obj = .ok call.data ∧
            h ++ a = pre ++ [Event.decode v true]
              ++ [Event.restMapping obj.gvk.GroupKind obj.gvk.version true]
              ++ [Event.marshal obj true])) := by
  obtain ⟨new, hh, hev⟩ := applyYAML_events w fuel configs h
  refine ⟨new, hh, ?_, ?_⟩
  · intro a gk ver b hs
    have hev1 := hev
    rw [hs] at hev1
    obtain ⟨_, o, ok, t, hb⟩ := eventsOk_position w a h _ b hev1
    have hs2 : new = (a ++ [Event.restMapping gk ver true]) ++ Event.marshal o ok :: t := by
      rw [hs, hb]; simp
    have hev2 := hev
    rw [hs2] at hev2
    obtain ⟨⟨hok, _⟩, hnext⟩ := eventsOk_position w _ h _ t hev2
    refine ⟨o, ok, t, hb, hok, ?_⟩
    intro hok1
    subst hok1
    exact hnext
  · intro a call ok b hs
    have hev1 := hev
    rw [hs] at hev1
    obtain ⟨⟨_, pre, v, obj, m, data, hhist, hd, hk, hm, hj, hcall⟩, _⟩ :=
      eventsOk_position w a h _ b hev1
    refine ⟨pre, v, obj, m, hd, hk, hm, by rw [hcall]; rfl, ?_, ?_, ?_, ?_⟩
    · rw [hcall]
      show (defaulted m obj).GetName = obj.GetName
      unfold defaulted
      split_ifs <;> rfl
    · intro hns hempty
      have hdef : defaulted m obj = obj.SetNamespace "default" := by
        simp only [defaulted, hns, hempty, if_true]
      rw [hdef] at hj hhist
      refine ⟨?_, by rw [hcall]; exact hj, hhist⟩
      rw [hcall]
      simp only [callFor, hns, if_true, hdef]
      rfl
    · intro hns hne
      have hdef : defaulted m obj = obj := by
        simp only [defaulted, hns, hne, if_true, if_false]
      rw [hdef] at hj hhist
      refine ⟨?_, by rw [hcall]; exact hj, hhist⟩
      rw [hcall]
      simp only [callFor, hns, if_true, hdef]
    · intro hns
      have hdef : defaulted m obj = obj := by
        simp only [defaulted, hns, if_false]
      rw [hdef] at hj hhist
      refine ⟨?_, by rw [hcall]; exact hj, hhist⟩
      rw [hcall]
      simp only [callFor, hns, if_false]

/-! ## Splitting -/

theorem splitAux_length (sep : List Char) : ∀ (s : List Char) (skip : Nat) (cur : List Char),
    (splitAux sep skip cur s).length = countAux sep skip s + 1
  | [], skip, cur => by simp [splitAux, countAux]
  | c :: rest, skip + 1, cur => by
    simp only [splitAux, countAux]
    exact splitAux_length sep rest skip cur
  | c :: rest, 0, cur => by
    simp only [splitAux, countAux]
    split
    · simp only [List.length_cons]
      rw [splitAux_length sep rest (sep.length - 1) []]
    · exact splitAux_length sep rest 0 (c :: cur)

theorem stringsSplit_length (s sep : String) :
    (stringsSplit s sep).length = stringsCount s sep + 1 := by
  simp [stringsSplit, stringsCount, splitAux_length]

theorem splitAux_separator_first (t cur : List Char) :
    splitAux separator.data 0 cur (separator.data ++ t)
      = cur.reverse :: splitAux separator.data 0 [] t := by
  simp [separator, splitAux, List.isPrefixOf]

theorem splitAux_separator_last : ∀ (t cur : List Char),
    (∀ i, i < t.length → separator.data.isPrefixOf (t.drop i ++ separator.data) = false) →
    splitAux separator.data 0 cur (t ++ separator.data) = [cur.reverse ++ t, []]
  | [], cur, _ => by simp [separator, splitAux, List.isPrefixOf]
  | c :: t, cur, h => by
    have h0 := h 0 (by simp)
    simp only [List.drop_zero, List.cons_append] at h0
    have ih := splitAux_separator_last t (c :: cur) (by
      intro i hi
      have := h (i + 1) (by simpa using hi)
      simpa using this)
    simp only [List.cons_append, splitAux]
    rw [if_neg (by
      intro hp
      have h1 : separator.data.isPrefixOf (c :: (t ++ separator.data)) = true := hp
      rw [h0] at h1
      exact Bool.noConfusion h1)]
    simpa using ih

theorem applyLoop_filter (w : World) (recur : List String → List Event → ApplyResult) :
    ∀ cs s h, applyLoop w recur (cs.filter (fun v => v.length ≠ 0)) s h
      = applyLoop w recur cs s h := by
  intro cs
  induction cs with
  | nil => intro s h; rfl
  | cons v rest ih =>
    intro s h
    by_cases hlen : v.length = 0
    · simp only [List.filter_cons, hlen, ne_eq, not_true_eq_false, decide_False, applyLoop,
        if_true]
      simpa using ih s h
    · have hf : (v :: rest).filter (fun v => v.length ≠ 0)
          = v :: rest.filter (fun v => v.length ≠ 0) := by
        simp [List.filter_cons, hlen]
      rw [hf]
      simp only [applyLoop, hlen, if_false, ih]

/-- C8: (1) the split of a text with `N` occurrences of the separator has
`N + 1` spans, hence at most `N + 1` non-empty ones; a text that starts with
the separator has an empty first span, and a text that ends with the separator
after a part in which no occurrence starts has an empty last span; (2) in
every run of `applyYAML`, at every depth, each span handed to the decoder is
non-empty; (3) `applyYAML` does the same, with the same count, error and
events, on a list and on that list without its empty spans. -/
theorem empty_spans_skipped (w : World) (text : String) :
    ((stringsSplit text separator).length = stringsCount text separator + 1 ∧
      ((stringsSplit text separator).filter (fun v => v.length ≠ 0)).length
        ≤ stringsCount text separator + 1 ∧
      stringsSplit (separator ++ text) separator = "" :: stringsSplit text separator ∧
      ((∀ i, i < text.length →
          separator.data.isPrefixOf (text.data.drop i ++ separator.data) = false) →
        stringsSplit (text ++ separator) separator = [text, ""])) ∧
    (∀ fuel configs h, ∃ new, (applyYAML w fuel configs h).2 = h ++ new ∧
      ∀ v ∈ decodedSpans new, v.length ≠ 0) ∧
    (∀ fuel configs h,
      applyYAML w fuel (configs.filter (fun v => v.length ≠ 0)) h = applyYAML w fuel configs h) := by
  refine ⟨⟨stringsSplit_length text separator, ?_, ?_, ?_⟩, ?_, ?_⟩
  · rw [← stringsSplit_length text separator]
    exact List.length_filter_le _ _
  · simp only [stringsSplit, String.data_append, splitAux_separator_first, List.reverse_nil,
      List.map_cons]
  · intro hno
    simp only [stringsSplit, String.data_append]
    rw [splitAux_separator_last text.data [] hno]
    simp
  · intro fuel configs h
    obtain ⟨new, hh, hev⟩ := applyYAML_events w fuel configs h
    refine ⟨new, hh, ?_⟩
    have key : ∀ (evs hist : List Event), EventsOk w hist evs → ∀ v ∈ decodedSpans evs, v.length ≠ 0 := by
      intro evs
      induction evs with
      | nil => intro hist _ v hv; simp [decodedSpans] at hv
      | cons e t ih =>
        intro hist hok v hv
        obtain ⟨h1, _, h3⟩ := hok
        cases e with
        | decode v1 ok =>
          simp only [decodedSpans, List.mem_cons] at hv
          rcases hv with hv | hv
          · subst hv; exact h1.1
          · exact ih _ h3 v hv
        | kustomize d ok => exact ih _ h3 v (by simpa [decodedSpans] using hv)
        | restMapping gk ver ok => exact ih _ h3 v (by simpa [decodedSpans] using hv)
        | marshal o ok => exact ih _ h3 v (by simpa [decodedSpans] using hv)
        | patch c ok => exact ih _ h3 v (by simpa [decodedSpans] using hv)
    exact key new h hev
  · intro fuel configs h
    cases fuel with
    | zero => rfl
    | succ fuel => exact applyLoop_filter w (applyYAML w fuel) configs 0 h

/-- C8 on a sample: a text that ends with the separator. -/
theorem empty_spans_skipped_witness :
    stringsSplit ("kind: A" ++ separator) separator = ["kind: A", ""] :=
  (empty_spans_skipped worldThree "kind: A").1.2.2.2 (by decide)

/-! ## The count next to an error -/

theorem appliedCalls_append (a b : List Event) :
    appliedCalls (a ++ b) = appliedCalls a ++ appliedCalls b := by
  induction a with
  | nil => rfl
  | cons e t ih =>
    cases e with
    | patch call ok => cases ok <;> simp [appliedCalls, ih]
    | decode v ok => simp [appliedCalls, ih]
    | kustomize d ok => simp [appliedCalls, ih]
    | restMapping gk ver ok => simp [appliedCalls, ih]
    | marshal o ok => simp [appliedCalls, ih]

/-- The count the loop returns never exceeds `sum` plus the number of Patch
calls that succeeded. -/
theorem applyLoop_count_le (w : World) (recur : List String → List Event → ApplyResult)
    (hrec : ∀ cs h n e, (recur cs h).1 = some (n, e) →
      ∃ new, (recur cs h).2 = h ++ new ∧ n ≤ (appliedCalls new).length) :
    ∀ cs s h n e, (applyLoop w recur cs s h).1 = some (n, e) →
      ∃ new, (applyLoop w recur cs s h).2 = h ++ new ∧ n ≤ s + (appliedCalls new).length := by
  apply applyLoop_cases w recur (fun _ s h res => ∀ n e, res.1 = some (n, e) →
      ∃ new, res.2 = h ++ new ∧ n ≤ s + (appliedCalls new).length)
  · intro s h n e hn
    simp only [Option.some.injEq, Prod.mk.injEq] at hn
    exact ⟨[], by simp, by omega⟩
  · intro v rest s h _ ih
    exact ih
  · intro v rest s h err _ _ n e hn
    simp only [Option.some.injEq, Prod.mk.injEq] at hn
    exact ⟨[Event.decode v false], rfl, by omega⟩
  · intro v rest s h obj err _ _ _ _ n e hn
    simp only [Option.some.injEq, Prod.mk.injEq] at hn
    exact ⟨[Event.decode v true, Event.kustomize (kustomizeDir w) false], by simp, by omega⟩
  · intro v rest s h obj raw h1 _ _ _ _ _ n e hn
    simp at hn
  · intro v rest s h obj raw k err h1 _ _ _ _ hrun n e hn
    simp only [Option.some.injEq, Prod.mk.injEq] at hn
    obtain ⟨new1, hh, _⟩ := hrec _ _ k (some err) (by rw [hrun])
    rw [hrun] at hh
    exact ⟨[Event.decode v true, Event.kustomize (kustomizeDir w) true] ++ new1,
      by simpa using hh, by omega⟩
  · intro v rest s h obj raw k h1 _ _ _ _ hrun ih n e hn
    obtain ⟨new1, hh, hk⟩ := hrec _ _ k none (by rw [hrun])
    rw [hrun] at hh
    have hh1 : h1 = h ++ [Event.decode v true] ++ [Event.kustomize (kustomizeDir w) true]
        ++ new1 := hh
    subst hh1
    obtain ⟨new2, hh2, hn2⟩ := ih n e hn
    refine ⟨[Event.decode v true, Event.kustomize (kustomizeDir w) true] ++ (new1 ++ new2),
      by rw [hh2]; simp, ?_⟩
    rw [appliedCalls_append, appliedCalls_append]
    simp only [appliedCalls, List.nil_append, List.length_append]
    omega
  · intro v rest s h obj err _ _ _ _ n e hn
    simp only [Option.some.injEq, Prod.mk.injEq] at hn
    exact ⟨[Event.decode v true, Event.restMapping obj.gvk.GroupKind obj.gvk.version false],
      by simp, by omega⟩
  · intro v rest s h obj m err _ _ _ _ _ n e hn
    simp only [Option.some.injEq, Prod.mk.injEq] at hn
    exact ⟨[Event.decode v true, Event.restMapping obj.gvk.GroupKind obj.gvk.version true,
      Event.marshal (defaulted m obj) false], by simp, by omega⟩
  · intro v rest s h obj m data err _ _ _ _ _ _ n e hn
    simp only [Option.some.injEq, Prod.mk.injEq] at hn
    exact ⟨[Event.decode v true, Event.restMapping obj.gvk.GroupKind obj.gvk.version true,
      Event.marshal (defaulted m obj) true, Event.patch (callFor m obj data) false],
      by simp, by omega⟩
  · intro v rest s h obj m data _ _ _ _ _ _ ih n e hn
    obtain ⟨new2, hh2, hn2⟩ := ih n e hn
    refine ⟨[Event.decode v true, Event.restMapping obj.gvk.GroupKind obj.gvk.version true,
      Event.marshal (defaulted m obj) true, Event.patch (callFor m obj data) true] ++ new2,
      by rw [hh2]; simp, ?_⟩
    rw [appliedCalls_append]
    simp only [appliedCalls, List.length_append, List.length_cons, List.length_nil]
    omega

/-- The count `applyYAML` returns, with or without an error, never exceeds the
number of Patch calls that succeeded. -/
theorem applyYAML_count_le (w : World) : ∀ fuel cs h n e,
    (applyYAML w fuel cs h).1 = some (n, e) →
      ∃ new, (applyYAML w fuel cs h).2 = h ++ new ∧ n ≤ (appliedCalls new).length := by
  intro fuel
  induction fuel with
  | zero => intro cs h n e hn; simp [applyYAML] at hn
  | succ fuel ih =>
    intro cs h n e hn
    obtain ⟨new, hh, hle⟩ := applyLoop_count_le w (applyYAML w fuel) ih cs 0 h n e hn
    exact ⟨new, hh, by omega⟩

/-! ## Claims on the variables and the template -/

/-- C6 fails on the code: for the entry `PLUGIN_FOO=a=b` the mapping has no
key `foo`, and holds the value `b` under the key `foo=a`; for the entry
`PLUGIN_MSG=line1\nline2` the value under `msg` is `line1`; this for every
function `toLower` that lower-cases the two ASCII strings met, as
`strings.ToLower` does. -/
theorem getVariablesFromDrone_splits_at_last_equals (toLower : String → String)
    (h1 : toLower "FOO=a" = "foo=a") (h2 : toLower "MSG" = "msg") :
    getVariablesFromDrone toLower ["PLUGIN_FOO=a=b"] = [("foo=a", "b")] ∧
      (getVariablesFromDrone toLower ["PLUGIN_FOO=a=b"]).get? "foo" = none ∧
      (getVariablesFromDrone toLower ["PLUGIN_MSG=line1\nline2"]).get? "msg" = some "line1" := by
  have e1 : findSubmatch "PLUGIN_".data "PLUGIN_FOO=a=b".data = some ("FOO=a".data, "b".data) := by
    decide
  have e2 : findSubmatch "DRONE_".data "PLUGIN_FOO=a=b".data = none := by decide
  have e3 : findSubmatch "PLUGIN_".data "PLUGIN_MSG=line1\nline2".data
      = some ("MSG".data, "line1".data) := by decide
  have e4 : findSubmatch "DRONE_".data "PLUGIN_MSG=line1\nline2".data = none := by decide
  have r1 : getVariablesFromDrone toLower ["PLUGIN_FOO=a=b"] = [("foo=a", "b")] := by
    simp only [getVariablesFromDrone, List.foldl, getVariablesStep, e1, e2, Ctx.set]
    rw [show String.mk "FOO=a".data = "FOO=a" from rfl, h1]
  have r2 : getVariablesFromDrone toLower ["PLUGIN_MSG=line1\nline2"] = [("msg", "line1")] := by
    simp only [getVariablesFromDrone, List.foldl, getVariablesStep, e3, e4, Ctx.set]
    rw [show String.mk "MSG".data = "MSG" from rfl, h2]
  rw [r1, r2]
  exact ⟨rfl, by decide, by decide⟩

/-- C6 at the failing inputs, with the lower-casing of ASCII text. -/
theorem getVariablesFromDrone_splits_at_last_equals_witness :
    getVariablesFromDrone asciiToLower ["PLUGIN_FOO=a=b"] = [("foo=a", "b")] ∧
      (getVariablesFromDrone asciiToLower ["PLUGIN_FOO=a=b"]).get? "foo" = none ∧
      (getVariablesFromDrone asciiToLower ["PLUGIN_MSG=line1\nline2"]).get? "msg"
        = some "line1" :=
  getVariablesFromDrone_splits_at_last_equals asciiToLower (by decide) (by decide)

/-- C9 fails on the code: on a source with an action that is not closed,
`parseYamlAndSplit` panics, whatever the environment, and so does `ssa`. -/
theorem parseYamlAndSplit_panics_on_malformed :
    (∀ toLower environ,
      parseYamlAndSplit toLower environ sourceMalformed = Outcome.panic "unclosed action") ∧
      ∀ fuel h, ssa worldMalformed fuel h = (some (Outcome.panic "unclosed action"), h) :=
  ⟨fun _ _ => rfl, fun _ _ => rfl⟩

theorem templateExecute_missing (ctx : Ctx) (name : String) (habs : ctx.get? name = none) :
    ∀ toks frames, name ∈ evaluatedRefs ctx toks frames →
      ∃ err, templateExecute ctx toks frames = .error err
  | [], _, h => by simp [evaluatedRefs] at h
  | Tok.text s :: rest, frames, h => by
    obtain ⟨err, he⟩ := templateExecute_missing ctx name habs rest frames
      (by simpa only [evaluatedRefs] using h)
    exact ⟨err, by simp only [templateExecute, he]⟩
  | Tok.field n :: rest, frames, h => by
    cases ha : active frames with
    | true =>
      simp only [evaluatedRefs, ha, if_true, List.mem_cons] at h
      rcases hn : ctx.get? n with _ | value
      · exact ⟨"map has no entry for key \"" ++ n ++ "\"",
          by simp only [templateExecute, ha, if_true, hn]⟩
      · have hr : name ∈ evaluatedRefs ctx rest frames := by
          rcases h with h | h
          · subst h; rw [habs] at hn; cases hn
          · exact h
        obtain ⟨err, he⟩ := templateExecute_missing ctx name habs rest frames hr
        exact ⟨err, by simp only [templateExecute, ha, if_true, hn, he]⟩
    | false =>
      simp only [evaluatedRefs, ha, Bool.false_eq_true, if_false] at h
      obtain ⟨err, he⟩ := templateExecute_missing ctx name habs rest frames h
      exact ⟨err, by simp only [templateExecute, ha, Bool.false_eq_true, if_false, he]⟩
  | Tok.ifConst b :: rest, frames, h => by
    obtain ⟨err, he⟩ := templateExecute_missing ctx name habs rest _
      (by simpa only [evaluatedRefs] using h)
    exact ⟨err, by simp only [templateExecute, he]⟩
  | Tok.ifField n :: rest, frames, h => by
    cases ha : active frames with
    | true =>
      rcases hn : ctx.get? n with _ | value
      · exact ⟨"map has no entry for key \"" ++ n ++ "\"",
          by simp only [templateExecute, ha, if_true, hn]⟩
      · simp only [evaluatedRefs, ha, if_true, hn, List.mem_cons] at h
        have hr : name ∈ evaluatedRefs ctx rest ((true, value != "") :: frames) := by
          rcases h with h | h
          · subst h; rw [habs] at hn; cases hn
          · exact h
        obtain ⟨err, he⟩ := templateExecute_missing ctx name habs rest _ hr
        exact ⟨err, by simp only [templateExecute, ha, if_true, hn, he]⟩
    | false =>
      simp only [evaluatedRefs, ha, Bool.false_eq_true, if_false] at h
      obtain ⟨err, he⟩ := templateExecute_missing ctx name habs rest _ h
      exact ⟨err, by simp only [templateExecute, ha, Bool.false_eq_true, if_false, he]⟩
  | Tok.elseBranch :: rest, frames, h => by
    cases frames with
    | nil =>
      obtain ⟨err, he⟩ := templateExecute_missing ctx name habs rest []
        (by simpa only [evaluatedRefs] using h)
      exact ⟨err, by simp only [templateExecute, he]⟩
    | cons f below =>
      obtain ⟨outer, selected⟩ := f
      obtain ⟨err, he⟩ := templateExecute_missing ctx name habs rest _
        (by simpa only [evaluatedRefs] using h)
      exact ⟨err, by simp only [templateExecute, he]⟩
  | Tok.endIf :: rest, frames, h => by
    obtain ⟨err, he⟩ := templateExecute_missing ctx name habs rest _
      (by simpa only [evaluatedRefs] using h)
    exact ⟨err, by simp only [templateExecute, he]⟩

/-- C7 as stated fails on the code: the source `sourceConditional` refers to
the variable `namespace`, which the mapping does not hold, inside a branch
that is not executed; `parseYamlAndSplit` returns the rendered span and no
error, and `ssa` enters `applyYAML` and applies one document. -/
theorem absent_reference_in_skipped_branch :
    templateParse sourceConditional
        = Parsed.ok [Tok.text (docConfigMap "a"), Tok.ifConst false,
            Tok.text "\n  namespace: ", Tok.field "namespace", Tok.endIf] ∧
      (getVariablesFromDrone asciiToLower sampleEnviron).get? "namespace" = none ∧
      parseYamlAndSplit asciiToLower sampleEnviron sourceConditional
        = Outcome.ok [docConfigMap "a"] ∧
      (ssa worldConditional 1 []).1 = some (Outcome.ok 1) ∧
      (appliedCalls (ssa worldConditional 1 []).2).length = 1 := by
  decide

/-- C7, amended: when the manifest source parses as a template and the
execution of the template looks up a variable `name` (an action `.name` or a
condition `if .name` outside every branch that is not selected) that the
mapping of `getVariablesFromDrone` does not hold, `parseYamlAndSplit` returns
an error, and `ssa` returns an error with the history unchanged: `applyYAML`
is not entered, the REST mapper is not asked and no Patch is issued. -/
theorem evaluated_undefined_variable_fails (w : World) (yaml : String) (toks : List Tok)
    (name : String) (hread : w.readFile (getenv w.environ "PLUGIN_YAML") = .ok yaml)
    (hparse : templateParse yaml = Parsed.ok toks)
    (href : name ∈ evaluatedRefs (getVariablesFromDrone w.toLower w.environ) toks [])
    (habs : (getVariablesFromDrone w.toLower w.environ).get? name = none) :
    (∃ err, parseYamlAndSplit w.toLower w.environ yaml = Outcome.error err) ∧
      ∀ fuel h, ∃ err, ssa w fuel h = (some (Outcome.error err), h) := by
  obtain ⟨err, he⟩ := templateExecute_missing _ name habs toks [] href
  have hp : parseYamlAndSplit w.toLower w.environ yaml = Outcome.error err := by
    simp only [parseYamlAndSplit, hparse, he]
  refine ⟨⟨err, hp⟩, ?_⟩
  intro fuel h
  unfold ssa
  rcases w.newDiscoveryClient with e1 | _
  · exact ⟨e1, rfl⟩
  · rcases w.newDynamicClient with e2 | _
    · exact ⟨e2, rfl⟩
    · exact ⟨err, by simp only [hread, hp]⟩

/-- C7, amended, on a sample: the source refers to `tag`, which is set, and to
`replicas`, which is not. -/
theorem evaluated_undefined_variable_fails_witness :
    (∃ err, parseYamlAndSplit worldUndefined.toLower worldUndefined.environ sourceUndefined
        = Outcome.error err) ∧
      ∀ fuel h, ∃ err, ssa worldUndefined fuel h = (some (Outcome.error err), h) :=
  evaluated_undefined_variable_fails worldUndefined sourceUndefined
    [Tok.text "image: app:", Tok.field "tag", Tok.text "\nreplicas: ", Tok.field "replicas"]
    "replicas" rfl (by decide) (by decide) (by decide)

end Dron8s
